import Mathlib

/-!
f64supp: in-place elementwise operations on `[]float64`.

A shallow embedding of `funcs.go`.

* A vector (`[]float64`) is a `List α`; the element type `α` is kept abstract, so every
  result holds for whatever arithmetic interprets `float64` (`+ - * /` come from the
  usual operator classes, the functions of Go's `math` package from the class `math`).
* An operation receives the primary vector, threads it through its loop (one `assign`
  per Go assignment `s[i] = ...`) and returns the final contents: the slice it returns in
  Go is the slice it was given, so the returned list is the new contents of `s`.
* In these operations a second vector `v1` is a value of its own (storage distinct from
  `s`). The two-vector operations are also run on a shared memory that holds both slices
  (`PlusvMem` and the like), where the slices may overlap and every read sees the writes
  made before it; on slices that do not overlap the two agree.
* Operations live in a monad `m` that can raise a `Panic`. Function values supplied by
  the caller are monadic as well (`Nat → m α`), since a Go function value may panic or
  have effects; a pure function `f` is passed as `fun i => pure (f i)`.
  Theorems are stated in the monad `Except Panic`.
-/

namespace F64supp

/-- The two ways a call can abort: the explicit `panic` of `accept`, carrying the two
lengths of its message, and Go's run-time panic on an index out of range. -/
inductive Panic where
  | invalidArraySize (size : Nat) (elements : Nat)
  | indexOutOfRange (index : Nat) (length : Nat)
  deriving DecidableEq, Repr

/-- Functions of Go's `math` package used by the library, on the element type. -/
class math (α : Type) where
  Pow : α → α → α
  Max : α → α → α
  Min : α → α → α
  Abs : α → α
  Log : α → α
  Exp : α → α

section Operations

variable {m : Type → Type} [Monad m] [MonadExcept Panic m] {α : Type}

/-- Read `s[i]`: panics when `i` is not below `len(s)`. -/
def index (s : List α) (i : Nat) : m α :=
  match s[i]? with
  | some x => pure x
  | none => throw (Panic.indexOutOfRange i s.length)

/-- Write `s[i] = x`: panics when `i` is not below `len(s)`. -/
def assign (s : List α) (i : Nat) (x : α) : m (List α) :=
  if i < s.length then pure (s.set i x) else throw (Panic.indexOutOfRange i s.length)

/-- The loop `for i := start; i < start + count; i++ { body }`, the vector being the
loop-carried state. -/
def loopFrom (body : Nat → List α → m (List α)) : Nat → Nat → List α → m (List α)
  | _, 0, s => pure s
  | i, count + 1, s => do
    let s ← body i s
    loopFrom body (i + 1) count s

/-- The loop `for i := 0; i < n; i++ { body }`. -/
def forUpTo (n : Nat) (s : List α) (body : Nat → List α → m (List α)) : m (List α) :=
  loopFrom body 0 n s

/-- The loop `for i, _ := range s { body }`: `len(s)` is read once, on entry. -/
def forRange (s : List α) (body : Nat → List α → m (List α)) : m (List α) :=
  forUpTo s.length s body

/-! ### building -/

/-- `Constant(c)`: f(i) = c. -/
def Constant (constant : α) : Nat → m α :=
  fun _ => pure constant

/-- `CoerceInt(i)`: `float64(i)`. -/
def CoerceInt [NatCast α] (i : Nat) : α :=
  (i : α)

/-- `Get(values)`: f(i) = values[i]. -/
def Get (values : List α) : Nat → m α :=
  fun i => index values i

/-! ### operations -/

/-- `accept(v, v1)`: panics when `len(v1) < len(v)`. -/
def accept (v v1 : List α) : m Unit :=
  if v1.length < v.length then
    throw (Panic.invalidArraySize v1.length v.length)
  else
    pure ()

def Apply (s : List α) (f : Nat → m α) : m (List α) :=
  forRange s fun i s => do
    assign s i (← f i)

def ApplyOp (s : List α) (f : α → m α) : m (List α) :=
  forRange s fun i s => do
    let val ← index s i
    assign s i (← f val)

def ApplyOpi (s : List α) (f : Nat → α → m α) : m (List α) :=
  forRange s fun i s => do
    let val ← index s i
    assign s i (← f i val)

def Ident [NatCast α] (s : List α) : m (List α) :=
  Apply s fun i => pure (CoerceInt i)

def Setl (s : List α) (value : α) : m (List α) :=
  forRange s fun i s => do
    assign s i value

def Setv (s v : List α) : m (List α) := do
  accept s v
  forRange s fun i s => do
    assign s i (← index v i)

def SetMaskl (s : List α) (value : α) (p : Nat → m Bool) : m (List α) :=
  forRange s fun i s => do
    if ← p i then
      assign s i value
    else
      pure s

def SetMaskv (s v : List α) (p : Nat → m Bool) : m (List α) := do
  accept s v
  forRange s fun i s => do
    if ← p i then
      assign s i (← index v i)
    else
      pure s

/-! #### Plus -/

def Plusv [Add α] (s v1 : List α) : m (List α) := do
  accept s v1
  forRange s fun i s => do
    assign s i ((← index s i) + (← index v1 i))

def Plusl [Add α] (s : List α) (value : α) : m (List α) :=
  forRange s fun i s => do
    assign s i ((← index s i) + value)

def PlusOp [Add α] (s : List α) (o : Nat → m α) : m (List α) :=
  forRange s fun i s => do
    assign s i ((← index s i) + (← o i))

def PlusOpi [Add α] (s : List α) (o : Nat → α → m α) : m (List α) :=
  forRange s fun i s => do
    let val ← index s i
    assign s i ((← index s i) + (← o i val))

/-! #### Minus -/

def Minusv [Sub α] (s v1 : List α) : m (List α) := do
  accept s v1
  forRange s fun i s => do
    assign s i ((← index s i) - (← index v1 i))

def Minusl [Sub α] (s : List α) (value : α) : m (List α) :=
  forRange s fun i s => do
    assign s i ((← index s i) - value)

def MinusOp [Sub α] (s : List α) (o : Nat → m α) : m (List α) :=
  forRange s fun i s => do
    assign s i ((← index s i) - (← o i))

def MinusOpi [Sub α] (s : List α) (o : Nat → α → m α) : m (List α) :=
  forRange s fun i s => do
    let val ← index s i
    assign s i ((← index s i) - (← o i val))

/-! #### Times -/

def Timesv [Mul α] (s v1 : List α) : m (List α) := do
  accept s v1
  forRange s fun i s => do
    assign s i ((← index s i) * (← index v1 i))

def Timesl [Mul α] (s : List α) (value : α) : m (List α) :=
  forRange s fun i s => do
    assign s i ((← index s i) * value)

def TimesOp [Mul α] (s : List α) (o : Nat → m α) : m (List α) :=
  forRange s fun i s => do
    assign s i ((← index s i) * (← o i))

def TimesOpi [Mul α] (s : List α) (o : Nat → α → m α) : m (List α) :=
  forRange s fun i s => do
    let val ← index s i
    assign s i ((← index s i) * (← o i val))

/-! #### Div -/

def Divv [Div α] (s v1 : List α) : m (List α) := do
  accept s v1
  forRange s fun i s => do
    assign s i ((← index s i) / (← index v1 i))

def Divl [Div α] (s : List α) (value : α) : m (List α) :=
  forRange s fun i s => do
    assign s i ((← index s i) / value)

def DivOp [Div α] (s : List α) (o : Nat → m α) : m (List α) :=
  forRange s fun i s => do
    assign s i ((← index s i) / (← o i))

def DivOpi [Div α] (s : List α) (o : Nat → α → m α) : m (List α) :=
  forRange s fun i s => do
    let val ← index s i
    assign s i ((← index s i) / (← o i val))

/-! #### Pow -/

def Powv [math α] (s v1 : List α) : m (List α) := do
  accept s v1
  forRange s fun i s => do
    let val ← index s i
    assign s i (math.Pow val (← index v1 i))

def Powl [math α] (s : List α) (value : α) : m (List α) :=
  forRange s fun i s => do
    let val ← index s i
    assign s i (math.Pow val value)

def PowOp [math α] (s : List α) (o : Nat → m α) : m (List α) :=
  forRange s fun i s => do
    let val ← index s i
    assign s i (math.Pow val (← o i))

def PowOpi [math α] (s : List α) (o : Nat → α → m α) : m (List α) :=
  forRange s fun i s => do
    let val ← index s i
    assign s i (math.Pow val (← o i val))

/-! #### Max -/

def Maxv [math α] (s v1 : List α) : m (List α) := do
  accept s v1
  forRange s fun i s => do
    let val ← index s i
    assign s i (math.Max val (← index v1 i))

def Maxl [math α] (s : List α) (value : α) : m (List α) :=
  forRange s fun i s => do
    let val ← index s i
    assign s i (math.Max val value)

def MaxOp [math α] (s : List α) (o : Nat → m α) : m (List α) :=
  forRange s fun i s => do
    let val ← index s i
    assign s i (math.Max val (← o i))

def MaxOpi [math α] (s : List α) (o : Nat → α → m α) : m (List α) :=
  forRange s fun i s => do
    let val ← index s i
    assign s i (math.Max val (← o i val))

/-! #### Min -/

def Minv [math α] (s v1 : List α) : m (List α) := do
  accept s v1
  forRange s fun i s => do
    let val ← index s i
    assign s i (math.Min val (← index v1 i))

def Minl [math α] (s : List α) (value : α) : m (List α) :=
  forRange s fun i s => do
    let val ← index s i
    assign s i (math.Min val value)

def MinOp [math α] (s : List α) (o : Nat → m α) : m (List α) :=
  forRange s fun i s => do
    let val ← index s i
    assign s i (math.Min val (← o i))

def MinOpi [math α] (s : List α) (o : Nat → α → m α) : m (List α) :=
  forRange s fun i s => do
    let val ← index s i
    assign s i (math.Min val (← o i val))

/-! #### reversal and unary operations -/

def Rev (s : List α) : m (List α) := do
  let size := s.length
  forUpTo (size / 2) s fun i s => do
    let tmp ← index s i
    let s ← assign s i (← index s (size - i - 1))
    assign s (size - i - 1) tmp

def Negv [Neg α] (s : List α) : m (List α) :=
  forRange s fun i s => do
    let val ← index s i
    assign s i (-val)

def Abs [math α] (s : List α) : m (List α) :=
  forRange s fun i s => do
    let val ← index s i
    assign s i (math.Abs val)

def Idivl [Div α] (s : List α) (value : α) : m (List α) :=
  forRange s fun i s => do
    let val ← index s i
    assign s i (value / val)

def Log [math α] (s : List α) : m (List α) :=
  forRange s fun i s => do
    let val ← index s i
    assign s i (math.Log val)

def Exp [math α] (s : List α) : m (List α) :=
  forRange s fun i s => do
    let val ← index s i
    assign s i (math.Exp val)

def Expl [math α] (s : List α) (value : α) : m (List α) :=
  forRange s fun i s => do
    let val ← index s i
    assign s i (math.Pow value val)

end Operations

end F64supp

/-! ## Vocabulary of the specification -/

namespace F64supp

/-- Outcome of a two-vector call `x` on the primary vector `s` and the second vector `v1`:
it aborts with the panic of `accept` exactly when `v1` is shorter than `s` (the message
then carries the two lengths), it returns normally exactly when `v1` is at least as long,
and it never aborts on an index out of range. -/
def FailsIffShorter {α : Type} (s v1 : List α) (x : Except Panic (List α)) : Prop :=
  ((∃ a b, x = Except.error (Panic.invalidArraySize a b)) ↔ v1.length < s.length) ∧
  (v1.length < s.length → x = Except.error (Panic.invalidArraySize v1.length s.length)) ∧
  ((∃ r, x = Except.ok r) ↔ s.length ≤ v1.length) ∧
  ∀ i n, x ≠ Except.error (Panic.indexOutOfRange i n)

/-- Every vector the call `x` returns has the length of the primary vector `s`. -/
def ReturnsLengthOf {α : Type} (s : List α) (x : Except Panic (List α)) : Prop :=
  ∀ r, x = Except.ok r → r.length = s.length

/-- The call `Setv(s, s)`, in which both parameters are the same slice: the check of
`accept` compares the slice with itself, and the read `v[i]` of the loop sees the
current contents of `s`. -/
def SetvSelf {m : Type → Type} [Monad m] [MonadExcept Panic m] {α : Type} (s : List α) :
    m (List α) := do
  accept s s
  forRange s fun i s => do
    assign s i (← index s i)

/-- Computations in which the function values of the caller keep a record of their
calls: the state is the list of the arguments they were called with so far, in order. -/
abbrev Recording (τ : Type) := StateT (List τ) (Except Panic)

/-- A stateful function of the index (an index-producer, or a predicate): each call
appends its index to the record, and the value it returns may depend on the calls made
before (a counter is `f calls i = calls.length`). -/
def recordingFunc {β : Type} (f : List Nat → Nat → β) : Nat → Recording Nat β :=
  fun i => do
    let calls ← get
    set (calls ++ [i])
    pure (f calls i)

/-- A stateful operator on values: each call appends the value it receives to the
record. -/
def recordingOp {α : Type} (f : List α → α → α) : α → Recording α α :=
  fun val => do
    let calls ← get
    set (calls ++ [val])
    pure (f calls val)

/-- A stateful indexed-operator: each call appends the index and the value it receives to
the record. -/
def recordingOpi {α : Type} (f : List (Nat × α) → Nat → α → α) :
    Nat → α → Recording (Nat × α) α :=
  fun i val => do
    let calls ← get
    set (calls ++ [(i, val)])
    pure (f calls i val)

/-! ### The two-vector operations run in place

The operations above return the new contents of `s`, or a panic. To say what the slice
holds when a call panics, the same code is run here on the memory of the slice: an
outcome is the contents of `s` when the call ends together with the panic that ended it,
if any. One iteration performs a single write, after its reads. -/

/-- The loop `for i := start; i < start + count; i++ { body }` run in place: when the
body panics the loop stops, and the slice keeps what the earlier iterations wrote. -/
def loopInPlace {α : Type} (body : Nat → List α → Except Panic (List α)) :
    Nat → Nat → List α → List α × Option Panic
  | _, 0, s => (s, none)
  | i, count + 1, s =>
    match body i s with
    | Except.ok s1 => loopInPlace body (i + 1) count s1
    | Except.error e => (s, some e)

/-- The loop `for i, _ := range s { body }` run in place. -/
def rangeInPlace {α : Type} (s : List α) (body : Nat → List α → Except Panic (List α)) :
    List α × Option Panic :=
  loopInPlace body 0 s.length s

/-- The result of a call, read off the outcome of its run in place. -/
def outcome {α : Type} : List α × Option Panic → Except Panic (List α)
  | (s, none) => Except.ok s
  | (_, some e) => Except.error e

def SetvInPlace {α : Type} (s v : List α) : List α × Option Panic :=
  match (accept s v : Except Panic Unit) with
  | Except.error e => (s, some e)
  | Except.ok _ =>
    rangeInPlace s fun i s => do
      assign s i (← index v i)

def SetMaskvInPlace {α : Type} (s v : List α) (p : Nat → Bool) : List α × Option Panic :=
  match (accept s v : Except Panic Unit) with
  | Except.error e => (s, some e)
  | Except.ok _ =>
    rangeInPlace s fun i s => do
      if p i then
        assign s i (← index v i)
      else
        pure s

def PlusvInPlace {α : Type} [Add α] (s v1 : List α) : List α × Option Panic :=
  match (accept s v1 : Except Panic Unit) with
  | Except.error e => (s, some e)
  | Except.ok _ =>
    rangeInPlace s fun i s => do
      assign s i ((← index s i) + (← index v1 i))

def MinusvInPlace {α : Type} [Sub α] (s v1 : List α) : List α × Option Panic :=
  match (accept s v1 : Except Panic Unit) with
  | Except.error e => (s, some e)
  | Except.ok _ =>
    rangeInPlace s fun i s => do
      assign s i ((← index s i) - (← index v1 i))

def TimesvInPlace {α : Type} [Mul α] (s v1 : List α) : List α × Option Panic :=
  match (accept s v1 : Except Panic Unit) with
  | Except.error e => (s, some e)
  | Except.ok _ =>
    rangeInPlace s fun i s => do
      assign s i ((← index s i) * (← index v1 i))

def DivvInPlace {α : Type} [Div α] (s v1 : List α) : List α × Option Panic :=
  match (accept s v1 : Except Panic Unit) with
  | Except.error e => (s, some e)
  | Except.ok _ =>
    rangeInPlace s fun i s => do
      assign s i ((← index s i) / (← index v1 i))

def PowvInPlace {α : Type} [math α] (s v1 : List α) : List α × Option Panic :=
  match (accept s v1 : Except Panic Unit) with
  | Except.error e => (s, some e)
  | Except.ok _ =>
    rangeInPlace s fun i s => do
      let val ← index s i
      assign s i (math.Pow val (← index v1 i))

def MaxvInPlace {α : Type} [math α] (s v1 : List α) : List α × Option Panic :=
  match (accept s v1 : Except Panic Unit) with
  | Except.error e => (s, some e)
  | Except.ok _ =>
    rangeInPlace s fun i s => do
      let val ← index s i
      assign s i (math.Max val (← index v1 i))

def MinvInPlace {α : Type} [math α] (s v1 : List α) : List α × Option Panic :=
  match (accept s v1 : Except Panic Unit) with
  | Except.error e => (s, some e)
  | Except.ok _ =>
    rangeInPlace s fun i s => do
      let val ← index s i
      assign s i (math.Min val (← index v1 i))

/-- The `math` functions on the rationals, where their values are rational: `Max`, `Min`
and `Abs` are those of the order, and `Pow x y` is `x ^ y` for an integer exponent `y`.
`Log`, `Exp` and `Pow` at a fractional exponent have no rational value in general; they
are left at `0` and nothing is proved from them. -/
instance ratMath : math ℚ where
  Pow x y := if y.den = 1 then x ^ y.num else 0
  Max x y := max x y
  Min x y := min x y
  Abs x := |x|
  Log _ := 0
  Exp _ := 0

/-! ### The two-vector operations on shared memory

A Go slice is a window on an array, and the two slices passed to a two-vector operation
may be windows on the same array. Here the operations are run on a memory `a` that holds
both operands: a slice is an offset and a length, every read `s[i]` or `v1[i]` is a read
of the memory as it is at that moment, and every write `s[i] = ...` changes the memory.
Two slices of different arrays are two windows that do not meet. -/

/-- A slice: the `len` positions of the memory from `off` on. -/
structure Slice where
  off : Nat
  len : Nat
  deriving DecidableEq, Repr

/-- The contents of the slice `sl` in the memory `a`. -/
def Slice.view {α : Type} (sl : Slice) (a : List α) : List α :=
  (a.drop sl.off).take sl.len

/-- The memory after the first `n` iterations of a loop that writes
`s[i] = f i s[i] v1[i]`, when no iteration reads a position written before it: the
positions `s.off, ..., s.off + n - 1` are rewritten from the original memory `a`. -/
def rewritten {α : Type} (f : Nat → α → α → α) (s v1 : Slice) (a : List α) (n : Nat) :
    List α :=
  a.mapIdx fun j x =>
    if s.off ≤ j ∧ j < s.off + n then f (j - s.off) x (a.getD (v1.off + (j - s.off)) x) else x

section Memory

variable {m : Type → Type} [Monad m] [MonadExcept Panic m] {α : Type}

/-- Read `sl[i]` from the memory: panics when `i` is not below `len(sl)`. -/
def load (a : List α) (sl : Slice) (i : Nat) : m α :=
  if i < sl.len then index a (sl.off + i) else throw (Panic.indexOutOfRange i sl.len)

/-- Write `sl[i] = x` to the memory: panics when `i` is not below `len(sl)`. -/
def store (a : List α) (sl : Slice) (i : Nat) (x : α) : m (List α) :=
  if i < sl.len then assign a (sl.off + i) x else throw (Panic.indexOutOfRange i sl.len)

/-- `accept(v, v1)` on slices: panics when `len(v1) < len(v)`. -/
def acceptMem (v v1 : Slice) : m Unit :=
  if v1.len < v.len then
    throw (Panic.invalidArraySize v1.len v.len)
  else
    pure ()

/-- The loop `for i, _ := range s { body }`, the memory being the loop-carried state. -/
def forRangeMem (s : Slice) (a : List α) (body : Nat → List α → m (List α)) : m (List α) :=
  forUpTo s.len a body

def SetvMem (a : List α) (s v : Slice) : m (List α) := do
  acceptMem s v
  forRangeMem s a fun i a => do
    store a s i (← load a v i)

def SetMaskvMem (a : List α) (s v : Slice) (p : Nat → m Bool) : m (List α) := do
  acceptMem s v
  forRangeMem s a fun i a => do
    if ← p i then
      store a s i (← load a v i)
    else
      pure a

def PlusvMem [Add α] (a : List α) (s v1 : Slice) : m (List α) := do
  acceptMem s v1
  forRangeMem s a fun i a => do
    store a s i ((← load a s i) + (← load a v1 i))

def MinusvMem [Sub α] (a : List α) (s v1 : Slice) : m (List α) := do
  acceptMem s v1
  forRangeMem s a fun i a => do
    store a s i ((← load a s i) - (← load a v1 i))

def TimesvMem [Mul α] (a : List α) (s v1 : Slice) : m (List α) := do
  acceptMem s v1
  forRangeMem s a fun i a => do
    store a s i ((← load a s i) * (← load a v1 i))

def DivvMem [Div α] (a : List α) (s v1 : Slice) : m (List α) := do
  acceptMem s v1
  forRangeMem s a fun i a => do
    store a s i ((← load a s i) / (← load a v1 i))

def PowvMem [math α] (a : List α) (s v1 : Slice) : m (List α) := do
  acceptMem s v1
  forRangeMem s a fun i a => do
    let val ← load a s i
    store a s i (math.Pow val (← load a v1 i))

def MaxvMem [math α] (a : List α) (s v1 : Slice) : m (List α) := do
  acceptMem s v1
  forRangeMem s a fun i a => do
    let val ← load a s i
    store a s i (math.Max val (← load a v1 i))

def MinvMem [math α] (a : List α) (s v1 : Slice) : m (List α) := do
  acceptMem s v1
  forRangeMem s a fun i a => do
    let val ← load a s i
    store a s i (math.Min val (← load a v1 i))

end Memory

/-! ### Numbers and NaN -/

/-- The values of `float64` as far as the claims about order need them: a number (here a
rational; the two infinities, which compare as the largest and the smallest number, are
left out), or NaN. -/
inductive F64 where
  | num (q : ℚ)
  | NaN
  deriving DecidableEq

/-- The comparison `x <= y` of `float64`: the order of the numbers, and false as soon as
one side is NaN. -/
def F64.le : F64 → F64 → Prop
  | F64.num a, F64.num b => a ≤ b
  | _, _ => False

instance : LE F64 := ⟨F64.le⟩

/-- The `math` functions on numbers and NaN, after the documentation of Go's `math`
package: `Max(x, NaN) = Max(NaN, x) = NaN` and `Min(x, NaN) = Min(NaN, x) = NaN`, otherwise
the larger and the smaller operand; `Abs(NaN) = NaN`; `Pow(x, 0) = 1` and `Pow(1, y) = 1`
for any `x` and `y`, NaN included, otherwise NaN for a NaN operand. On numbers `Pow`,
`Log` and `Exp` are those of `ratMath`. -/
instance f64Math : math F64 where
  Pow x y :=
    if y = F64.num 0 then F64.num 1
    else if x = F64.num 1 then F64.num 1
    else match x, y with
      | F64.num a, F64.num b => F64.num (math.Pow a b)
      | _, _ => F64.NaN
  Max x y :=
    match x, y with
    | F64.num a, F64.num b => F64.num (max a b)
    | _, _ => F64.NaN
  Min x y :=
    match x, y with
    | F64.num a, F64.num b => F64.num (min a b)
    | _, _ => F64.NaN
  Abs x :=
    match x with
    | F64.num a => F64.num |a|
    | F64.NaN => F64.NaN
  Log x :=
    match x with
    | F64.num a => F64.num (math.Log a)
    | F64.NaN => F64.NaN
  Exp x :=
    match x with
    | F64.num a => F64.num (math.Exp a)
    | F64.NaN => F64.NaN

end F64supp

/-! ## Laws of the primitives at `Except Panic` -/

namespace F64supp

section Laws

variable {α : Type}

theorem index_of_getElem? {s : List α} {i : Nat} {a : α} (h : s[i]? = some a) :
    (index s i : Except Panic α) = pure a := by
  simp [index, h]

theorem assign_of_lt {s : List α} {i : Nat} (x : α) (h : i < s.length) :
    (assign s i x : Except Panic (List α)) = pure (s.set i x) := by
  simp [assign, h]

theorem accept_of_le {v v1 : List α} (h : v.length ≤ v1.length) :
    (accept v v1 : Except Panic Unit) = pure () := by
  simp [accept, Nat.not_lt.mpr h]

theorem accept_of_lt {v v1 : List α} (h : v1.length < v.length) :
    (accept v v1 : Except Panic Unit) = throw (Panic.invalidArraySize v1.length v.length) := by
  simp [accept, h]

theorem throw_bind_except {β γ : Type} (e : Panic) (f : β → Except Panic γ) :
    ((throw e : Except Panic β) >>= f) = Except.error e := rfl

/-- A loop whose body rewrites element `i` to `h i s[i]` maps `h` over the positions it
visits. -/
theorem loopFrom_mapIdx (body : Nat → List α → Except Panic (List α)) (h : Nat → α → α)
    (n : Nat)
    (hb : ∀ i (t : List α) a, i < n → t[i]? = some a → body i t = pure (t.set i (h i a))) :
    ∀ (k i : Nat) (s : List α), i + k = n → s.length = n →
      loopFrom body i k s = pure (s.mapIdx fun j a => if i ≤ j then h j a else a) := by
  intro k
  induction k with
  | zero =>
    intro i s hik hs
    have : (s.mapIdx fun j a => if i ≤ j then h j a else a) = s := by
      apply List.ext_getElem?
      intro j
      rw [List.getElem?_mapIdx]
      by_cases hj : j < s.length
      · have : ¬ i ≤ j := by omega
        simp [List.getElem?_eq_getElem hj, this]
      · simp [List.getElem?_eq_none (Nat.le_of_not_lt hj)]
    simp [loopFrom, this]
  | succ k ih =>
    intro i s hik hs
    have hi : i < s.length := by omega
    have hget : s[i]? = some s[i] := List.getElem?_eq_getElem hi
    have hlen : (s.set i (h i s[i])).length = n := by simpa using hs
    rw [loopFrom, hb i s s[i] (by omega) hget, pure_bind,
      ih (i + 1) (s.set i (h i s[i])) (by omega) hlen]
    congr 1
    apply List.ext_getElem?
    intro j
    rw [List.getElem?_mapIdx, List.getElem?_mapIdx, List.getElem?_set]
    by_cases hij : i = j
    · subst hij
      simp [hi, hget]
    · have : (i + 1 ≤ j) ↔ (i ≤ j) := by omega
      simp [hij, this]

theorem forRange_mapIdx (s : List α) (body : Nat → List α → Except Panic (List α))
    (h : Nat → α → α)
    (hb : ∀ i (t : List α) a, i < s.length → t[i]? = some a →
      body i t = pure (t.set i (h i a))) :
    forRange s body = pure (s.mapIdx h) := by
  have := loopFrom_mapIdx body h s.length hb s.length 0 s (by omega) rfl
  simpa [forRange, forUpTo] using this

theorem assign_of_getElem? {s : List α} {i : Nat} {a : α} (x : α) (h : s[i]? = some a) :
    (assign s i x : Except Panic (List α)) = pure (s.set i x) := by
  have hi : i < s.length := by
    rcases Nat.lt_or_ge i s.length with hlt | hge
    · exact hlt
    · rw [List.getElem?_eq_none hge] at h
      cases h
  exact assign_of_lt x hi

theorem set_of_getElem? {s : List α} {i : Nat} {a : α} (h : s[i]? = some a) :
    s.set i a = s := by
  apply List.ext_getElem?
  intro j
  rw [List.getElem?_set]
  by_cases hij : i = j
  · subst hij
    have hi : i < s.length := by
      rcases Nat.lt_or_ge i s.length with hlt | hge
      · exact hlt
      · rw [List.getElem?_eq_none hge] at h
        cases h
    simp [h, hi]
  · simp [hij]

/-- A loop whose body rewrites element `i` to `f s[i] v1[i]` zips `s` with `v1`. -/
theorem forRange_zipWith (f : α → α → α) (s v1 : List α) (hle : s.length ≤ v1.length)
    (body : Nat → List α → Except Panic (List α))
    (hb : ∀ i (t : List α) a b, t[i]? = some a → v1[i]? = some b →
      body i t = pure (t.set i (f a b))) :
    forRange s body = pure (List.zipWith f s v1) := by
  rw [forRange_mapIdx s body (fun i a => match v1[i]? with | some b => f a b | none => a)]
  · congr 1
    apply List.ext_getElem?
    intro j
    rw [List.getElem?_mapIdx, List.getElem?_zipWith]
    by_cases hj : j < s.length
    · have hv : j < v1.length := by omega
      simp [List.getElem?_eq_getElem hj, List.getElem?_eq_getElem hv]
    · simp [List.getElem?_eq_none (Nat.le_of_not_lt hj)]
  · intro i t a hi ha
    have hv : i < v1.length := by omega
    rw [hb i t a v1[i] ha (List.getElem?_eq_getElem hv)]
    simp [List.getElem?_eq_getElem hv]

/-! ### Closed forms: two-vector operations -/

theorem Setv_eq (s v : List α) (hle : s.length ≤ v.length) :
    (Setv s v : Except Panic (List α)) = pure (List.zipWith (fun _ b => b) s v) := by
  rw [Setv, accept_of_le hle, pure_bind]
  apply forRange_zipWith _ s v hle
  intro i t a b ha hb
  simp [index_of_getElem? hb, assign_of_getElem? _ ha]

theorem SetMaskv_eq (s v : List α) (p : Nat → Bool) (hle : s.length ≤ v.length) :
    (SetMaskv s v (fun i => pure (p i)) : Except Panic (List α)) =
      pure (s.mapIdx fun i a => if p i then v.getD i a else a) := by
  rw [SetMaskv, accept_of_le hle, pure_bind]
  apply forRange_mapIdx
  intro i t a hi ha
  have hv : i < v.length := by omega
  have hget : v[i]? = some v[i] := List.getElem?_eq_getElem hv
  by_cases hp : p i
  · simp [hp, index_of_getElem? hget, assign_of_getElem? _ ha, List.getD_eq_getElem?_getD, hget]
  · simp [hp, set_of_getElem? ha]

theorem Plusv_eq [Add α] (s v1 : List α) (hle : s.length ≤ v1.length) :
    (Plusv s v1 : Except Panic (List α)) = pure (List.zipWith (· + ·) s v1) := by
  rw [Plusv, accept_of_le hle, pure_bind]
  apply forRange_zipWith _ s v1 hle
  intro i t a b ha hb
  simp [index_of_getElem? ha, index_of_getElem? hb, assign_of_getElem? _ ha]

theorem Minusv_eq [Sub α] (s v1 : List α) (hle : s.length ≤ v1.length) :
    (Minusv s v1 : Except Panic (List α)) = pure (List.zipWith (· - ·) s v1) := by
  rw [Minusv, accept_of_le hle, pure_bind]
  apply forRange_zipWith _ s v1 hle
  intro i t a b ha hb
  simp [index_of_getElem? ha, index_of_getElem? hb, assign_of_getElem? _ ha]

theorem Timesv_eq [Mul α] (s v1 : List α) (hle : s.length ≤ v1.length) :
    (Timesv s v1 : Except Panic (List α)) = pure (List.zipWith (· * ·) s v1) := by
  rw [Timesv, accept_of_le hle, pure_bind]
  apply forRange_zipWith _ s v1 hle
  intro i t a b ha hb
  simp [index_of_getElem? ha, index_of_getElem? hb, assign_of_getElem? _ ha]

theorem Divv_eq [Div α] (s v1 : List α) (hle : s.length ≤ v1.length) :
    (Divv s v1 : Except Panic (List α)) = pure (List.zipWith (· / ·) s v1) := by
  rw [Divv, accept_of_le hle, pure_bind]
  apply forRange_zipWith _ s v1 hle
  intro i t a b ha hb
  simp [index_of_getElem? ha, index_of_getElem? hb, assign_of_getElem? _ ha]

theorem Powv_eq [math α] (s v1 : List α) (hle : s.length ≤ v1.length) :
    (Powv s v1 : Except Panic (List α)) = pure (List.zipWith math.Pow s v1) := by
  rw [Powv, accept_of_le hle, pure_bind]
  apply forRange_zipWith _ s v1 hle
  intro i t a b ha hb
  simp [index_of_getElem? ha, index_of_getElem? hb, assign_of_getElem? _ ha]

theorem Maxv_eq [math α] (s v1 : List α) (hle : s.length ≤ v1.length) :
    (Maxv s v1 : Except Panic (List α)) = pure (List.zipWith math.Max s v1) := by
  rw [Maxv, accept_of_le hle, pure_bind]
  apply forRange_zipWith _ s v1 hle
  intro i t a b ha hb
  simp [index_of_getElem? ha, index_of_getElem? hb, assign_of_getElem? _ ha]

theorem Minv_eq [math α] (s v1 : List α) (hle : s.length ≤ v1.length) :
    (Minv s v1 : Except Panic (List α)) = pure (List.zipWith math.Min s v1) := by
  rw [Minv, accept_of_le hle, pure_bind]
  apply forRange_zipWith _ s v1 hle
  intro i t a b ha hb
  simp [index_of_getElem? ha, index_of_getElem? hb, assign_of_getElem? _ ha]

/-! ### A second vector that is too short -/

theorem SetMaskv_short (s v : List α) (p : Nat → Except Panic Bool) (h : v.length < s.length) :
    SetMaskv s v p = Except.error (Panic.invalidArraySize v.length s.length) := by
  rw [SetMaskv, accept_of_lt h, throw_bind_except]

theorem Setv_short (s v : List α) (h : v.length < s.length) :
    (Setv s v : Except Panic (List α)) =
      Except.error (Panic.invalidArraySize v.length s.length) := by
  rw [Setv, accept_of_lt h, throw_bind_except]

theorem Plusv_short [Add α] (s v1 : List α) (h : v1.length < s.length) :
    (Plusv s v1 : Except Panic (List α)) =
      Except.error (Panic.invalidArraySize v1.length s.length) := by
  rw [Plusv, accept_of_lt h, throw_bind_except]

theorem Minusv_short [Sub α] (s v1 : List α) (h : v1.length < s.length) :
    (Minusv s v1 : Except Panic (List α)) =
      Except.error (Panic.invalidArraySize v1.length s.length) := by
  rw [Minusv, accept_of_lt h, throw_bind_except]

theorem Timesv_short [Mul α] (s v1 : List α) (h : v1.length < s.length) :
    (Timesv s v1 : Except Panic (List α)) =
      Except.error (Panic.invalidArraySize v1.length s.length) := by
  rw [Timesv, accept_of_lt h, throw_bind_except]

theorem Divv_short [Div α] (s v1 : List α) (h : v1.length < s.length) :
    (Divv s v1 : Except Panic (List α)) =
      Except.error (Panic.invalidArraySize v1.length s.length) := by
  rw [Divv, accept_of_lt h, throw_bind_except]

theorem Powv_short [math α] (s v1 : List α) (h : v1.length < s.length) :
    (Powv s v1 : Except Panic (List α)) =
      Except.error (Panic.invalidArraySize v1.length s.length) := by
  rw [Powv, accept_of_lt h, throw_bind_except]

theorem Maxv_short [math α] (s v1 : List α) (h : v1.length < s.length) :
    (Maxv s v1 : Except Panic (List α)) =
      Except.error (Panic.invalidArraySize v1.length s.length) := by
  rw [Maxv, accept_of_lt h, throw_bind_except]

theorem Minv_short [math α] (s v1 : List α) (h : v1.length < s.length) :
    (Minv s v1 : Except Panic (List α)) =
      Except.error (Panic.invalidArraySize v1.length s.length) := by
  rw [Minv, accept_of_lt h, throw_bind_except]

/-! ### Closed forms: scalar and indexed-operator variants -/

theorem SetMaskl_eq (s : List α) (value : α) (p : Nat → Bool) :
    (SetMaskl s value (fun i => pure (p i)) : Except Panic (List α)) =
      pure (s.mapIdx fun i a => if p i then value else a) := by
  apply forRange_mapIdx
  intro i t a _ ha
  by_cases hp : p i
  · simp [hp, assign_of_getElem? _ ha]
  · simp [hp, set_of_getElem? ha]

theorem Plusl_eq [Add α] (s : List α) (value : α) :
    (Plusl s value : Except Panic (List α)) = pure (s.map (· + value)) := by
  rw [Plusl, forRange_mapIdx s _ (fun _ a => a + value)]
  · congr 1
    apply List.ext_getElem?
    intro j
    simp
  · intro i t a _ ha
    simp [index_of_getElem? ha, assign_of_getElem? _ ha]

theorem Minusl_eq [Sub α] (s : List α) (value : α) :
    (Minusl s value : Except Panic (List α)) = pure (s.map (· - value)) := by
  rw [Minusl, forRange_mapIdx s _ (fun _ a => a - value)]
  · congr 1
    apply List.ext_getElem?
    intro j
    simp
  · intro i t a _ ha
    simp [index_of_getElem? ha, assign_of_getElem? _ ha]

theorem PlusOpi_eq [Add α] (s : List α) (o : Nat → α → α) :
    (PlusOpi s (fun i x => pure (o i x)) : Except Panic (List α)) =
      pure (s.mapIdx fun i a => a + o i a) := by
  apply forRange_mapIdx
  intro i t a _ ha
  simp [index_of_getElem? ha, assign_of_getElem? _ ha]

theorem MinusOpi_eq [Sub α] (s : List α) (o : Nat → α → α) :
    (MinusOpi s (fun i x => pure (o i x)) : Except Panic (List α)) =
      pure (s.mapIdx fun i a => a - o i a) := by
  apply forRange_mapIdx
  intro i t a _ ha
  simp [index_of_getElem? ha, assign_of_getElem? _ ha]

theorem TimesOpi_eq [Mul α] (s : List α) (o : Nat → α → α) :
    (TimesOpi s (fun i x => pure (o i x)) : Except Panic (List α)) =
      pure (s.mapIdx fun i a => a * o i a) := by
  apply forRange_mapIdx
  intro i t a _ ha
  simp [index_of_getElem? ha, assign_of_getElem? _ ha]

theorem DivOpi_eq [Div α] (s : List α) (o : Nat → α → α) :
    (DivOpi s (fun i x => pure (o i x)) : Except Panic (List α)) =
      pure (s.mapIdx fun i a => a / o i a) := by
  apply forRange_mapIdx
  intro i t a _ ha
  simp [index_of_getElem? ha, assign_of_getElem? _ ha]

theorem PowOpi_eq [math α] (s : List α) (o : Nat → α → α) :
    (PowOpi s (fun i x => pure (o i x)) : Except Panic (List α)) =
      pure (s.mapIdx fun i a => math.Pow a (o i a)) := by
  apply forRange_mapIdx
  intro i t a _ ha
  simp [index_of_getElem? ha, assign_of_getElem? _ ha]

theorem MaxOpi_eq [math α] (s : List α) (o : Nat → α → α) :
    (MaxOpi s (fun i x => pure (o i x)) : Except Panic (List α)) =
      pure (s.mapIdx fun i a => math.Max a (o i a)) := by
  apply forRange_mapIdx
  intro i t a _ ha
  simp [index_of_getElem? ha, assign_of_getElem? _ ha]

theorem MinOpi_eq [math α] (s : List α) (o : Nat → α → α) :
    (MinOpi s (fun i x => pure (o i x)) : Except Panic (List α)) =
      pure (s.mapIdx fun i a => math.Min a (o i a)) := by
  apply forRange_mapIdx
  intro i t a _ ha
  simp [index_of_getElem? ha, assign_of_getElem? _ ha]

/-! ### Closed forms: producers and unary operations -/

theorem Apply_eq (s : List α) (f : Nat → α) :
    (Apply s (fun i => pure (f i)) : Except Panic (List α)) =
      pure (s.mapIdx fun i _ => f i) := by
  apply forRange_mapIdx
  intro i t a _ ha
  simp [assign_of_getElem? _ ha]

theorem Ident_eq [NatCast α] (s : List α) :
    (Ident s : Except Panic (List α)) = pure (s.mapIdx fun i _ => (i : α)) :=
  Apply_eq s fun i => (i : α)

theorem mapIdx_self (s : List α) : (s.mapIdx fun _ a => a) = s := by
  apply List.ext_getElem?
  intro j
  simp

theorem SetvSelf_eq (s : List α) : (SetvSelf s : Except Panic (List α)) = pure s := by
  rw [SetvSelf, accept_of_le (Nat.le_refl _), pure_bind,
    forRange_mapIdx s _ (fun _ a => a), mapIdx_self]
  intro i t a _ ha
  simp [index_of_getElem? ha, assign_of_getElem? _ ha]

theorem Setv_self_eq (s : List α) : (Setv s s : Except Panic (List α)) = pure s := by
  rw [Setv_eq s s (Nat.le_refl _)]
  congr 1
  apply List.ext_getElem?
  intro j
  rw [List.getElem?_zipWith]
  cases s[j]? <;> rfl

theorem Minl_eq [math α] (s : List α) (value : α) :
    (Minl s value : Except Panic (List α)) = pure (s.mapIdx fun _ a => math.Min a value) := by
  apply forRange_mapIdx
  intro i t a _ ha
  simp [index_of_getElem? ha, assign_of_getElem? _ ha]

theorem MinOp_eq [math α] (s : List α) (o : Nat → α) :
    (MinOp s (fun i => pure (o i)) : Except Panic (List α)) =
      pure (s.mapIdx fun i a => math.Min a (o i)) := by
  apply forRange_mapIdx
  intro i t a _ ha
  simp [index_of_getElem? ha, assign_of_getElem? _ ha]

theorem Powl_eq [math α] (s : List α) (value : α) :
    (Powl s value : Except Panic (List α)) = pure (s.mapIdx fun _ a => math.Pow a value) := by
  apply forRange_mapIdx
  intro i t a _ ha
  simp [index_of_getElem? ha, assign_of_getElem? _ ha]

theorem Expl_eq [math α] (s : List α) (value : α) :
    (Expl s value : Except Panic (List α)) = pure (s.mapIdx fun _ a => math.Pow value a) := by
  apply forRange_mapIdx
  intro i t a _ ha
  simp [index_of_getElem? ha, assign_of_getElem? _ ha]

theorem mapIdx_const_eq_map (f : α → α) (s : List α) : (s.mapIdx fun _ a => f a) = s.map f := by
  apply List.ext_getElem?
  intro j
  simp

theorem Abs_eq [math α] (s : List α) :
    (Abs s : Except Panic (List α)) = pure (s.map math.Abs) := by
  rw [Abs, forRange_mapIdx s _ (fun _ a => math.Abs a), mapIdx_const_eq_map]
  intro i t a _ ha
  simp [index_of_getElem? ha, assign_of_getElem? _ ha]

theorem Negv_eq [Neg α] (s : List α) :
    (Negv s : Except Panic (List α)) = pure (s.map fun a => -a) := by
  rw [Negv, forRange_mapIdx s _ (fun _ a => -a), mapIdx_const_eq_map]
  intro i t a _ ha
  simp [index_of_getElem? ha, assign_of_getElem? _ ha]

/-! ### Loops whose function values record their calls -/

/-- A loop whose body, at index `i`, makes one recorded call `e i s[i]` and rewrites element
`i` only, records the calls for the indices it visits, in ascending order. -/
theorem loopFrom_recording {τ : Type} (body : Nat → List α → Recording τ (List α))
    (e : Nat → α → τ) (n : Nat)
    (hb : ∀ i (t : List α) a (L : List τ), i < n → t[i]? = some a →
      ∃ x, (body i t).run L = pure (t.set i x, L ++ [e i a])) :
    ∀ (k i : Nat) (t : List α) (L : List τ), i + k = n → t.length = n →
      ∃ r, (loopFrom body i k t).run L = pure (r, L ++ (t.mapIdx e).drop i) := by
  intro k
  induction k with
  | zero =>
    intro i t L hik ht
    refine ⟨t, ?_⟩
    have : (t.mapIdx e).drop i = [] := by
      apply List.drop_eq_nil_of_le
      simp
      omega
    simp [loopFrom, this]
  | succ k ih =>
    intro i t L hik ht
    have hi : i < t.length := by omega
    obtain ⟨x, hx⟩ := hb i t t[i] L (by omega) (List.getElem?_eq_getElem hi)
    obtain ⟨r, hr⟩ := ih (i + 1) (t.set i x) (L ++ [e i t[i]]) (by omega) (by simpa using ht)
    refine ⟨r, ?_⟩
    rw [loopFrom, StateT.run_bind, hx, pure_bind, hr]
    congr 2
    have hdrop : ((t.set i x).mapIdx e).drop (i + 1) = (t.mapIdx e).drop (i + 1) := by
      apply List.ext_getElem?
      intro j
      rw [List.getElem?_drop, List.getElem?_drop, List.getElem?_mapIdx,
        List.getElem?_mapIdx, List.getElem?_set]
      have : ¬ i = i + 1 + j := by omega
      simp [this]
    have hcons : (t.mapIdx e).drop i = e i t[i] :: (t.mapIdx e).drop (i + 1) := by
      rw [List.drop_eq_getElem_cons (by simpa using hi)]
      simp
    rw [hdrop, hcons]
    simp

theorem forRange_recording {τ : Type} (s : List α)
    (body : Nat → List α → Recording τ (List α)) (e : Nat → α → τ) (L : List τ)
    (hb : ∀ i (t : List α) a (L : List τ), i < s.length → t[i]? = some a →
      ∃ x, (body i t).run L = pure (t.set i x, L ++ [e i a])) :
    ∃ r, (forRange s body).run L = pure (r, L ++ s.mapIdx e) := by
  have := loopFrom_recording body e s.length hb s.length 0 s L (by omega) rfl
  simpa [forRange, forUpTo] using this

theorem lt_of_getElem? {s : List α} {i : Nat} {a : α} (h : s[i]? = some a) :
    i < s.length := by
  rcases Nat.lt_or_ge i s.length with hlt | hge
  · exact hlt
  · rw [List.getElem?_eq_none hge] at h
    cases h

theorem mapIdx_index_eq_range (s : List α) : (s.mapIdx fun i _ => i) = List.range s.length := by
  apply List.ext_getElem?
  intro j
  rw [List.getElem?_mapIdx]
  by_cases hj : j < s.length
  · simp [List.getElem?_eq_getElem hj, List.getElem?_range hj]
  · simp [List.getElem?_eq_none (Nat.le_of_not_lt hj)]
    omega

theorem mapIdx_pair_eq_enum (s : List α) : (s.mapIdx fun i a => (i, a)) = s.enum := by
  rw [List.mapIdx_eq_enum_map]
  conv_rhs => rw [← List.map_id s.enum]
  apply List.map_congr_left
  rintro ⟨i, a⟩ _
  rfl

theorem Apply_records (s : List α) (f : List Nat → Nat → α) (L : List Nat) :
    ∃ r, (Apply s (recordingFunc f)).run L = pure (r, L ++ s.mapIdx fun i _ => i) := by
  apply forRange_recording
  intro i t a L _ ha
  have hlt := lt_of_getElem? ha
  simp [assign, hlt, recordingFunc]
  exact ⟨_, rfl⟩

theorem ApplyOp_records (s : List α) (f : List α → α → α) (L : List α) :
    ∃ r, (ApplyOp s (recordingOp f)).run L = pure (r, L ++ s) := by
  have h : ∃ r, (ApplyOp s (recordingOp f)).run L = pure (r, L ++ s.mapIdx fun _ a => a) := by
    apply forRange_recording
    intro i t a L _ ha
    have hlt := lt_of_getElem? ha
    simp [index, ha, assign, hlt, recordingOp]
    exact ⟨_, rfl⟩
  rwa [mapIdx_self] at h

theorem ApplyOpi_records (s : List α) (f : List (Nat × α) → Nat → α → α)
    (L : List (Nat × α)) :
    ∃ r, (ApplyOpi s (recordingOpi f)).run L = pure (r, L ++ s.mapIdx fun i a => (i, a)) := by
  apply forRange_recording
  intro i t a L _ ha
  have hlt := lt_of_getElem? ha
  simp [index, ha, assign, hlt, recordingOpi]
  exact ⟨_, rfl⟩

theorem SetMaskl_records (s : List α) (value : α) (p : List Nat → Nat → Bool)
    (L : List Nat) :
    ∃ r, (SetMaskl s value (recordingFunc p)).run L = pure (r, L ++ s.mapIdx fun i _ => i) := by
  apply forRange_recording
  intro i t a L _ ha
  have hlt := lt_of_getElem? ha
  by_cases hp : p L i
  · simp [assign, hlt, recordingFunc, hp]
    exact ⟨_, rfl⟩
  · refine ⟨a, ?_⟩
    simp [recordingFunc, hp, set_of_getElem? ha]

theorem SetMaskv_records (s v : List α) (p : List Nat → Nat → Bool) (L : List Nat)
    (hle : s.length ≤ v.length) :
    ∃ r, (SetMaskv s v (recordingFunc p)).run L = pure (r, L ++ s.mapIdx fun i _ => i) := by
  have hacc : (accept s v : Recording Nat Unit) = pure () := by
    simp [accept, Nat.not_lt.mpr hle]
  rw [SetMaskv, hacc, pure_bind]
  apply forRange_recording
  intro i t a L hi ha
  have hlt := lt_of_getElem? ha
  have hv : v[i]? = some v[i] := List.getElem?_eq_getElem (by omega)
  by_cases hp : p L i
  · simp [index, hv, assign, hlt, recordingFunc, hp]
    exact ⟨_, rfl⟩
  · refine ⟨a, ?_⟩
    simp [recordingFunc, hp, set_of_getElem? ha]

theorem PlusOp_records [Add α] (s : List α) (f : List Nat → Nat → α) (L : List Nat) :
    ∃ r, (PlusOp s (recordingFunc f)).run L = pure (r, L ++ s.mapIdx fun i _ => i) := by
  apply forRange_recording
  intro i t a L _ ha
  have hlt := lt_of_getElem? ha
  simp [index, ha, assign, hlt, recordingFunc]
  exact ⟨_, rfl⟩

theorem PlusOpi_records [Add α] (s : List α) (f : List (Nat × α) → Nat → α → α)
    (L : List (Nat × α)) :
    ∃ r, (PlusOpi s (recordingOpi f)).run L = pure (r, L ++ s.mapIdx fun i a => (i, a)) := by
  apply forRange_recording
  intro i t a L _ ha
  have hlt := lt_of_getElem? ha
  simp [index, ha, assign, hlt, recordingOpi]
  exact ⟨_, rfl⟩

theorem MinusOp_records [Sub α] (s : List α) (f : List Nat → Nat → α) (L : List Nat) :
    ∃ r, (MinusOp s (recordingFunc f)).run L = pure (r, L ++ s.mapIdx fun i _ => i) := by
  apply forRange_recording
  intro i t a L _ ha
  have hlt := lt_of_getElem? ha
  simp [index, ha, assign, hlt, recordingFunc]
  exact ⟨_, rfl⟩

theorem MinusOpi_records [Sub α] (s : List α) (f : List (Nat × α) → Nat → α → α)
    (L : List (Nat × α)) :
    ∃ r, (MinusOpi s (recordingOpi f)).run L = pure (r, L ++ s.mapIdx fun i a => (i, a)) := by
  apply forRange_recording
  intro i t a L _ ha
  have hlt := lt_of_getElem? ha
  simp [index, ha, assign, hlt, recordingOpi]
  exact ⟨_, rfl⟩

theorem TimesOp_records [Mul α] (s : List α) (f : List Nat → Nat → α) (L : List Nat) :
    ∃ r, (TimesOp s (recordingFunc f)).run L = pure (r, L ++ s.mapIdx fun i _ => i) := by
  apply forRange_recording
  intro i t a L _ ha
  have hlt := lt_of_getElem? ha
  simp [index, ha, assign, hlt, recordingFunc]
  exact ⟨_, rfl⟩

theorem TimesOpi_records [Mul α] (s : List α) (f : List (Nat × α) → Nat → α → α)
    (L : List (Nat × α)) :
    ∃ r, (TimesOpi s (recordingOpi f)).run L = pure (r, L ++ s.mapIdx fun i a => (i, a)) := by
  apply forRange_recording
  intro i t a L _ ha
  have hlt := lt_of_getElem? ha
  simp [index, ha, assign, hlt, recordingOpi]
  exact ⟨_, rfl⟩

theorem DivOp_records [Div α] (s : List α) (f : List Nat → Nat → α) (L : List Nat) :
    ∃ r, (DivOp s (recordingFunc f)).run L = pure (r, L ++ s.mapIdx fun i _ => i) := by
  apply forRange_recording
  intro i t a L _ ha
  have hlt := lt_of_getElem? ha
  simp [index, ha, assign, hlt, recordingFunc]
  exact ⟨_, rfl⟩

theorem DivOpi_records [Div α] (s : List α) (f : List (Nat × α) → Nat → α → α)
    (L : List (Nat × α)) :
    ∃ r, (DivOpi s (recordingOpi f)).run L = pure (r, L ++ s.mapIdx fun i a => (i, a)) := by
  apply forRange_recording
  intro i t a L _ ha
  have hlt := lt_of_getElem? ha
  simp [index, ha, assign, hlt, recordingOpi]
  exact ⟨_, rfl⟩

theorem PowOp_records [math α] (s : List α) (f : List Nat → Nat → α) (L : List Nat) :
    ∃ r, (PowOp s (recordingFunc f)).run L = pure (r, L ++ s.mapIdx fun i _ => i) := by
  apply forRange_recording
  intro i t a L _ ha
  have hlt := lt_of_getElem? ha
  simp [index, ha, assign, hlt, recordingFunc]
  exact ⟨_, rfl⟩

theorem PowOpi_records [math α] (s : List α) (f : List (Nat × α) → Nat → α → α)
    (L : List (Nat × α)) :
    ∃ r, (PowOpi s (recordingOpi f)).run L = pure (r, L ++ s.mapIdx fun i a => (i, a)) := by
  apply forRange_recording
  intro i t a L _ ha
  have hlt := lt_of_getElem? ha
  simp [index, ha, assign, hlt, recordingOpi]
  exact ⟨_, rfl⟩

theorem MaxOp_records [math α] (s : List α) (f : List Nat → Nat → α) (L : List Nat) :
    ∃ r, (MaxOp s (recordingFunc f)).run L = pure (r, L ++ s.mapIdx fun i _ => i) := by
  apply forRange_recording
  intro i t a L _ ha
  have hlt := lt_of_getElem? ha
  simp [index, ha, assign, hlt, recordingFunc]
  exact ⟨_, rfl⟩

theorem MaxOpi_records [math α] (s : List α) (f : List (Nat × α) → Nat → α → α)
    (L : List (Nat × α)) :
    ∃ r, (MaxOpi s (recordingOpi f)).run L = pure (r, L ++ s.mapIdx fun i a => (i, a)) := by
  apply forRange_recording
  intro i t a L _ ha
  have hlt := lt_of_getElem? ha
  simp [index, ha, assign, hlt, recordingOpi]
  exact ⟨_, rfl⟩

theorem MinOp_records [math α] (s : List α) (f : List Nat → Nat → α) (L : List Nat) :
    ∃ r, (MinOp s (recordingFunc f)).run L = pure (r, L ++ s.mapIdx fun i _ => i) := by
  apply forRange_recording
  intro i t a L _ ha
  have hlt := lt_of_getElem? ha
  simp [index, ha, assign, hlt, recordingFunc]
  exact ⟨_, rfl⟩

theorem MinOpi_records [math α] (s : List α) (f : List (Nat × α) → Nat → α → α)
    (L : List (Nat × α)) :
    ∃ r, (MinOpi s (recordingOpi f)).run L = pure (r, L ++ s.mapIdx fun i a => (i, a)) := by
  apply forRange_recording
  intro i t a L _ ha
  have hlt := lt_of_getElem? ha
  simp [index, ha, assign, hlt, recordingOpi]
  exact ⟨_, rfl⟩

/-! ### Runs in place -/

/-- The run in place of a loop ends as the loop does. -/
theorem outcome_loopInPlace (body : Nat → List α → Except Panic (List α)) :
    ∀ (k i : Nat) (s : List α), outcome (loopInPlace body i k s) = loopFrom body i k s := by
  intro k
  induction k with
  | zero =>
    intro i s
    rfl
  | succ k ih =>
    intro i s
    rw [loopInPlace, loopFrom]
    cases h : body i s with
    | error e => rfl
    | ok s1 => exact ih (i + 1) s1

theorem outcome_rangeInPlace (s : List α) (body : Nat → List α → Except Panic (List α)) :
    outcome (rangeInPlace s body) = forRange s body :=
  outcome_loopInPlace body s.length 0 s

/-- A call that starts with `accept` ends, in place and as a value, in the same way. -/
theorem outcome_accept_then (s v : List α) (body : Nat → List α → Except Panic (List α)) :
    outcome (match (accept s v : Except Panic Unit) with
      | Except.error e => (s, some e)
      | Except.ok _ => rangeInPlace s body) =
    (accept s v >>= fun _ => forRange s body) := by
  cases h : (accept s v : Except Panic Unit) with
  | error e => rfl
  | ok u => exact outcome_rangeInPlace s body

/-- A call that starts with `accept` on a second vector that is too short leaves the
slice as it was. -/
theorem accept_then_short (s v : List α) (body : Nat → List α → Except Panic (List α))
    (h : v.length < s.length) :
    (match (accept s v : Except Panic Unit) with
      | Except.error e => (s, some e)
      | Except.ok _ => rangeInPlace s body) =
    (s, some (Panic.invalidArraySize v.length s.length)) := by
  rw [accept_of_lt h]

/-! ### The four variants of a family -/

theorem Plusl_eq_PlusOp_Constant [Add α] (s : List α) (c : α) :
    (Plusl s c : Except Panic (List α)) = PlusOp s (Constant c) := by
  simp [Plusl, PlusOp, Constant]

theorem Plusv_eq_PlusOp_Get [Add α] (s v : List α) (hle : s.length ≤ v.length) :
    (Plusv s v : Except Panic (List α)) = PlusOp s (Get v) := by
  rw [Plusv, accept_of_le hle, pure_bind]
  rfl

theorem PlusOp_eq_PlusOpi [Add α] (s : List α) (o : Nat → Except Panic α) :
    PlusOp s o = PlusOpi s fun i _ => o i := by
  unfold PlusOp PlusOpi
  congr 1
  funext i t
  cases h : (index t i : Except Panic α) with
  | error e => rfl
  | ok a => rfl

theorem Minusl_eq_MinusOp_Constant [Sub α] (s : List α) (c : α) :
    (Minusl s c : Except Panic (List α)) = MinusOp s (Constant c) := by
  simp [Minusl, MinusOp, Constant]

theorem Minusv_eq_MinusOp_Get [Sub α] (s v : List α) (hle : s.length ≤ v.length) :
    (Minusv s v : Except Panic (List α)) = MinusOp s (Get v) := by
  rw [Minusv, accept_of_le hle, pure_bind]
  rfl

theorem MinusOp_eq_MinusOpi [Sub α] (s : List α) (o : Nat → Except Panic α) :
    MinusOp s o = MinusOpi s fun i _ => o i := by
  unfold MinusOp MinusOpi
  congr 1
  funext i t
  cases h : (index t i : Except Panic α) with
  | error e => rfl
  | ok a => rfl

theorem Timesl_eq_TimesOp_Constant [Mul α] (s : List α) (c : α) :
    (Timesl s c : Except Panic (List α)) = TimesOp s (Constant c) := by
  simp [Timesl, TimesOp, Constant]

theorem Timesv_eq_TimesOp_Get [Mul α] (s v : List α) (hle : s.length ≤ v.length) :
    (Timesv s v : Except Panic (List α)) = TimesOp s (Get v) := by
  rw [Timesv, accept_of_le hle, pure_bind]
  rfl

theorem TimesOp_eq_TimesOpi [Mul α] (s : List α) (o : Nat → Except Panic α) :
    TimesOp s o = TimesOpi s fun i _ => o i := by
  unfold TimesOp TimesOpi
  congr 1
  funext i t
  cases h : (index t i : Except Panic α) with
  | error e => rfl
  | ok a => rfl

theorem Divl_eq_DivOp_Constant [Div α] (s : List α) (c : α) :
    (Divl s c : Except Panic (List α)) = DivOp s (Constant c) := by
  simp [Divl, DivOp, Constant]

theorem Divv_eq_DivOp_Get [Div α] (s v : List α) (hle : s.length ≤ v.length) :
    (Divv s v : Except Panic (List α)) = DivOp s (Get v) := by
  rw [Divv, accept_of_le hle, pure_bind]
  rfl

theorem DivOp_eq_DivOpi [Div α] (s : List α) (o : Nat → Except Panic α) :
    DivOp s o = DivOpi s fun i _ => o i := by
  unfold DivOp DivOpi
  congr 1
  funext i t
  cases h : (index t i : Except Panic α) with
  | error e => rfl
  | ok a => rfl

theorem Powl_eq_PowOp_Constant [math α] (s : List α) (c : α) :
    (Powl s c : Except Panic (List α)) = PowOp s (Constant c) := by
  simp [Powl, PowOp, Constant]

theorem Powv_eq_PowOp_Get [math α] (s v : List α) (hle : s.length ≤ v.length) :
    (Powv s v : Except Panic (List α)) = PowOp s (Get v) := by
  rw [Powv, accept_of_le hle, pure_bind]
  rfl

theorem PowOp_eq_PowOpi [math α] (s : List α) (o : Nat → Except Panic α) :
    PowOp s o = PowOpi s fun i _ => o i := rfl

theorem Maxl_eq_MaxOp_Constant [math α] (s : List α) (c : α) :
    (Maxl s c : Except Panic (List α)) = MaxOp s (Constant c) := by
  simp [Maxl, MaxOp, Constant]

theorem Maxv_eq_MaxOp_Get [math α] (s v : List α) (hle : s.length ≤ v.length) :
    (Maxv s v : Except Panic (List α)) = MaxOp s (Get v) := by
  rw [Maxv, accept_of_le hle, pure_bind]
  rfl

theorem MaxOp_eq_MaxOpi [math α] (s : List α) (o : Nat → Except Panic α) :
    MaxOp s o = MaxOpi s fun i _ => o i := rfl

theorem Minl_eq_MinOp_Constant [math α] (s : List α) (c : α) :
    (Minl s c : Except Panic (List α)) = MinOp s (Constant c) := by
  simp [Minl, MinOp, Constant]

theorem Minv_eq_MinOp_Get [math α] (s v : List α) (hle : s.length ≤ v.length) :
    (Minv s v : Except Panic (List α)) = MinOp s (Get v) := by
  rw [Minv, accept_of_le hle, pure_bind]
  rfl

theorem MinOp_eq_MinOpi [math α] (s : List α) (o : Nat → Except Panic α) :
    MinOp s o = MinOpi s fun i _ => o i := rfl

/-! ### Loops on shared memory -/

theorem view_getElem? (sl : Slice) (a : List α) (i : Nat) :
    (sl.view a)[i]? = if i < sl.len then a[sl.off + i]? else none := by
  unfold Slice.view
  rw [List.getElem?_take]
  split
  · rw [List.getElem?_drop]
  · rfl

theorem view_length (sl : Slice) (a : List α) (h : sl.off + sl.len ≤ a.length) :
    (sl.view a).length = sl.len := by
  unfold Slice.view
  rw [List.length_take, List.length_drop]
  omega

theorem rewritten_length (f : Nat → α → α → α) (s v1 : Slice) (a : List α) (n : Nat) :
    (rewritten f s v1 a n).length = a.length := by
  simp [rewritten]

theorem rewritten_getElem? (f : Nat → α → α → α) (s v1 : Slice) (a : List α) (n j : Nat) :
    (rewritten f s v1 a n)[j]? =
      (a[j]?).map fun x =>
        if s.off ≤ j ∧ j < s.off + n then f (j - s.off) x (a.getD (v1.off + (j - s.off)) x)
        else x := by
  unfold rewritten
  rw [List.getElem?_mapIdx]

theorem rewritten_getElem?_outside (f : Nat → α → α → α) (s v1 : Slice) (a : List α)
    (n j : Nat) (hn : ¬ (s.off ≤ j ∧ j < s.off + n)) :
    (rewritten f s v1 a n)[j]? = a[j]? := by
  rw [rewritten_getElem?]
  cases a[j]? with
  | none => rfl
  | some x => simp only [Option.map_some', if_neg hn]

theorem rewritten_getElem?_inside (f : Nat → α → α → α) (s v1 : Slice) (a : List α)
    (n j : Nat) (x : α) (hin : s.off ≤ j ∧ j < s.off + n) (hx : a[j]? = some x) :
    (rewritten f s v1 a n)[j]? =
      some (f (j - s.off) x (a.getD (v1.off + (j - s.off)) x)) := by
  rw [rewritten_getElem?, hx]
  simp only [Option.map_some', if_pos hin]

theorem rewritten_zero (f : Nat → α → α → α) (s v1 : Slice) (a : List α) :
    rewritten f s v1 a 0 = a := by
  apply List.ext_getElem?
  intro j
  exact rewritten_getElem?_outside f s v1 a 0 j (by omega)

/-- A loop over the slice `s` that writes `s[i] = f i s[i] v1[i]` rewrites the positions of
`s` from the original memory, provided the slices lie in the memory and no read of `v1`
falls on a position of `s` written earlier: `v1` does not start before `s`, or the first
`len(s)` positions of `v1` end before `s` starts. -/
theorem loopFrom_rewritten (f : Nat → α → α → α) (s v1 : Slice) (a : List α)
    (body : Nat → List α → Except Panic (List α))
    (hs : s.off + s.len ≤ a.length) (hv : v1.off + v1.len ≤ a.length)
    (hle : s.len ≤ v1.len) (hsep : s.off ≤ v1.off ∨ v1.off + s.len ≤ s.off)
    (hb : ∀ i (t : List α) x y, i < s.len → t[s.off + i]? = some x →
      t[v1.off + i]? = some y → body i t = pure (t.set (s.off + i) (f i x y))) :
    ∀ (k i : Nat), i + k = s.len →
      loopFrom body i k (rewritten f s v1 a i) = pure (rewritten f s v1 a s.len) := by
  intro k
  induction k with
  | zero =>
    intro i hik
    have : i = s.len := by omega
    subst this
    rfl
  | succ k ih =>
    intro i hik
    have hi : s.off + i < a.length := by omega
    have hvi : v1.off + i < a.length := by omega
    have hx : (rewritten f s v1 a i)[s.off + i]? = some a[s.off + i] := by
      rw [rewritten_getElem?_outside f s v1 a i _ (by omega), List.getElem?_eq_getElem hi]
    have hy : (rewritten f s v1 a i)[v1.off + i]? = some a[v1.off + i] := by
      rw [rewritten_getElem?_outside f s v1 a i _ (by omega), List.getElem?_eq_getElem hvi]
    rw [loopFrom, hb i _ _ _ (by omega) hx hy, pure_bind]
    have hnext : (rewritten f s v1 a i).set (s.off + i) (f i a[s.off + i] a[v1.off + i]) =
        rewritten f s v1 a (i + 1) := by
      apply List.ext_getElem?
      intro j
      rw [List.getElem?_set, rewritten_length]
      by_cases hj : s.off + i = j
      · subst hj
        rw [if_pos rfl, if_pos hi,
          rewritten_getElem?_inside f s v1 a (i + 1) _ _ (by omega)
            (List.getElem?_eq_getElem hi)]
        simp [List.getD_eq_getElem?_getD, List.getElem?_eq_getElem hvi]
      · rw [if_neg hj, rewritten_getElem?, rewritten_getElem?]
        have h1 : (s.off ≤ j ∧ j < s.off + (i + 1)) ↔ (s.off ≤ j ∧ j < s.off + i) := by omega
        simp only [h1]
    rw [hnext]
    exact ih (i + 1) (by omega)

theorem forRangeMem_rewritten (f : Nat → α → α → α) (s v1 : Slice) (a : List α)
    (body : Nat → List α → Except Panic (List α))
    (hs : s.off + s.len ≤ a.length) (hv : v1.off + v1.len ≤ a.length)
    (hle : s.len ≤ v1.len) (hsep : s.off ≤ v1.off ∨ v1.off + s.len ≤ s.off)
    (hb : ∀ i (t : List α) x y, i < s.len → t[s.off + i]? = some x →
      t[v1.off + i]? = some y → body i t = pure (t.set (s.off + i) (f i x y))) :
    forRangeMem s a body = pure (rewritten f s v1 a s.len) := by
  have := loopFrom_rewritten f s v1 a body hs hv hle hsep hb s.len 0 (by omega)
  rw [rewritten_zero] at this
  exact this

/-- What the rewritten memory holds: the slice `s` holds `f i s[i] v1[i]` at every index, in
terms of the original contents of the two slices, and the memory outside `s` is as it
was. -/
theorem rewritten_spec (f : Nat → α → α → α) (s v1 : Slice) (a : List α)
    (hs : s.off + s.len ≤ a.length) :
    (rewritten f s v1 a s.len).length = a.length ∧
    (s.view (rewritten f s v1 a s.len)).length = s.len ∧
    (∀ i x y, (s.view a)[i]? = some x → (v1.view a)[i]? = some y →
      (s.view (rewritten f s v1 a s.len))[i]? = some (f i x y)) ∧
    (∀ j, j < s.off ∨ s.off + s.len ≤ j → (rewritten f s v1 a s.len)[j]? = a[j]?) := by
  refine ⟨rewritten_length _ _ _ _ _, ?_, ?_, ?_⟩
  · exact view_length _ _ (by rw [rewritten_length]; exact hs)
  · intro i x y hx hy
    rw [view_getElem?] at hx hy ⊢
    by_cases hi : i < s.len
    · rw [if_pos hi] at hx ⊢
      by_cases hiv : i < v1.len
      · rw [if_pos hiv] at hy
        rw [rewritten_getElem?_inside f s v1 a s.len _ x (by omega) hx]
        simp [List.getD_eq_getElem?_getD, hy]
      · rw [if_neg hiv] at hy
        cases hy
    · rw [if_neg hi] at hx
      cases hx
  · intro j hj
    exact rewritten_getElem?_outside f s v1 a s.len j (by omega)

theorem load_of_getElem? {a : List α} {sl : Slice} {i : Nat} {x : α} (hi : i < sl.len)
    (h : a[sl.off + i]? = some x) : (load a sl i : Except Panic α) = pure x := by
  simp [load, hi, index, h]

theorem store_of_getElem? {a : List α} {sl : Slice} {i : Nat} {x : α} (y : α)
    (hi : i < sl.len) (h : a[sl.off + i]? = some x) :
    (store a sl i y : Except Panic (List α)) = pure (a.set (sl.off + i) y) := by
  simp [store, hi, assign, lt_of_getElem? h]

theorem acceptMem_of_le {v v1 : Slice} (h : v.len ≤ v1.len) :
    (acceptMem v v1 : Except Panic Unit) = pure () := by
  simp [acceptMem, Nat.not_lt.mpr h]

theorem SetvMem_eq (a : List α) (s v : Slice)
    (hs : s.off + s.len ≤ a.length) (hv : v.off + v.len ≤ a.length)
    (hle : s.len ≤ v.len) (hsep : s.off ≤ v.off ∨ v.off + s.len ≤ s.off) :
    (SetvMem a s v : Except Panic (List α)) =
      pure (rewritten (fun _ _ y => y) s v a s.len) := by
  rw [SetvMem, acceptMem_of_le hle, pure_bind]
  apply forRangeMem_rewritten _ s v a _ hs hv hle hsep
  intro i t x y hi hx hy
  simp [load_of_getElem? (Nat.lt_of_lt_of_le hi hle) hy, store_of_getElem? _ hi hx]

theorem SetMaskvMem_eq (a : List α) (s v : Slice) (p : Nat → Bool)
    (hs : s.off + s.len ≤ a.length) (hv : v.off + v.len ≤ a.length)
    (hle : s.len ≤ v.len) (hsep : s.off ≤ v.off ∨ v.off + s.len ≤ s.off) :
    (SetMaskvMem a s v (fun i => pure (p i)) : Except Panic (List α)) =
      pure (rewritten (fun i x y => if p i then y else x) s v a s.len) := by
  rw [SetMaskvMem, acceptMem_of_le hle, pure_bind]
  apply forRangeMem_rewritten _ s v a _ hs hv hle hsep
  intro i t x y hi hx hy
  by_cases hp : p i
  · simp [hp, load_of_getElem? (Nat.lt_of_lt_of_le hi hle) hy, store_of_getElem? _ hi hx]
  · simp [hp, set_of_getElem? hx]

theorem PlusvMem_eq [Add α] (a : List α) (s v1 : Slice)
    (hs : s.off + s.len ≤ a.length) (hv : v1.off + v1.len ≤ a.length)
    (hle : s.len ≤ v1.len) (hsep : s.off ≤ v1.off ∨ v1.off + s.len ≤ s.off) :
    (PlusvMem a s v1 : Except Panic (List α)) =
      pure (rewritten (fun _ x y => x + y) s v1 a s.len) := by
  rw [PlusvMem, acceptMem_of_le hle, pure_bind]
  apply forRangeMem_rewritten _ s v1 a _ hs hv hle hsep
  intro i t x y hi hx hy
  simp [load_of_getElem? hi hx, load_of_getElem? (Nat.lt_of_lt_of_le hi hle) hy,
    store_of_getElem? _ hi hx]

theorem MinusvMem_eq [Sub α] (a : List α) (s v1 : Slice)
    (hs : s.off + s.len ≤ a.length) (hv : v1.off + v1.len ≤ a.length)
    (hle : s.len ≤ v1.len) (hsep : s.off ≤ v1.off ∨ v1.off + s.len ≤ s.off) :
    (MinusvMem a s v1 : Except Panic (List α)) =
      pure (rewritten (fun _ x y => x - y) s v1 a s.len) := by
  rw [MinusvMem, acceptMem_of_le hle, pure_bind]
  apply forRangeMem_rewritten _ s v1 a _ hs hv hle hsep
  intro i t x y hi hx hy
  simp [load_of_getElem? hi hx, load_of_getElem? (Nat.lt_of_lt_of_le hi hle) hy,
    store_of_getElem? _ hi hx]

theorem TimesvMem_eq [Mul α] (a : List α) (s v1 : Slice)
    (hs : s.off + s.len ≤ a.length) (hv : v1.off + v1.len ≤ a.length)
    (hle : s.len ≤ v1.len) (hsep : s.off ≤ v1.off ∨ v1.off + s.len ≤ s.off) :
    (TimesvMem a s v1 : Except Panic (List α)) =
      pure (rewritten (fun _ x y => x * y) s v1 a s.len) := by
  rw [TimesvMem, acceptMem_of_le hle, pure_bind]
  apply forRangeMem_rewritten _ s v1 a _ hs hv hle hsep
  intro i t x y hi hx hy
  simp [load_of_getElem? hi hx, load_of_getElem? (Nat.lt_of_lt_of_le hi hle) hy,
    store_of_getElem? _ hi hx]

theorem DivvMem_eq [Div α] (a : List α) (s v1 : Slice)
    (hs : s.off + s.len ≤ a.length) (hv : v1.off + v1.len ≤ a.length)
    (hle : s.len ≤ v1.len) (hsep : s.off ≤ v1.off ∨ v1.off + s.len ≤ s.off) :
    (DivvMem a s v1 : Except Panic (List α)) =
      pure (rewritten (fun _ x y => x / y) s v1 a s.len) := by
  rw [DivvMem, acceptMem_of_le hle, pure_bind]
  apply forRangeMem_rewritten _ s v1 a _ hs hv hle hsep
  intro i t x y hi hx hy
  simp [load_of_getElem? hi hx, load_of_getElem? (Nat.lt_of_lt_of_le hi hle) hy,
    store_of_getElem? _ hi hx]

theorem PowvMem_eq [math α] (a : List α) (s v1 : Slice)
    (hs : s.off + s.len ≤ a.length) (hv : v1.off + v1.len ≤ a.length)
    (hle : s.len ≤ v1.len) (hsep : s.off ≤ v1.off ∨ v1.off + s.len ≤ s.off) :
    (PowvMem a s v1 : Except Panic (List α)) =
      pure (rewritten (fun _ x y => math.Pow x y) s v1 a s.len) := by
  rw [PowvMem, acceptMem_of_le hle, pure_bind]
  apply forRangeMem_rewritten _ s v1 a _ hs hv hle hsep
  intro i t x y hi hx hy
  simp [load_of_getElem? hi hx, load_of_getElem? (Nat.lt_of_lt_of_le hi hle) hy,
    store_of_getElem? _ hi hx]

theorem MaxvMem_eq [math α] (a : List α) (s v1 : Slice)
    (hs : s.off + s.len ≤ a.length) (hv : v1.off + v1.len ≤ a.length)
    (hle : s.len ≤ v1.len) (hsep : s.off ≤ v1.off ∨ v1.off + s.len ≤ s.off) :
    (MaxvMem a s v1 : Except Panic (List α)) =
      pure (rewritten (fun _ x y => math.Max x y) s v1 a s.len) := by
  rw [MaxvMem, acceptMem_of_le hle, pure_bind]
  apply forRangeMem_rewritten _ s v1 a _ hs hv hle hsep
  intro i t x y hi hx hy
  simp [load_of_getElem? hi hx, load_of_getElem? (Nat.lt_of_lt_of_le hi hle) hy,
    store_of_getElem? _ hi hx]

theorem MinvMem_eq [math α] (a : List α) (s v1 : Slice)
    (hs : s.off + s.len ≤ a.length) (hv : v1.off + v1.len ≤ a.length)
    (hle : s.len ≤ v1.len) (hsep : s.off ≤ v1.off ∨ v1.off + s.len ≤ s.off) :
    (MinvMem a s v1 : Except Panic (List α)) =
      pure (rewritten (fun _ x y => math.Min x y) s v1 a s.len) := by
  rw [MinvMem, acceptMem_of_le hle, pure_bind]
  apply forRangeMem_rewritten _ s v1 a _ hs hv hle hsep
  intro i t x y hi hx hy
  simp [load_of_getElem? hi hx, load_of_getElem? (Nat.lt_of_lt_of_le hi hle) hy,
    store_of_getElem? _ hi hx]

/-- The slice `s` of the rewritten memory is the zip of the original contents of the two
slices. -/
theorem view_rewritten_zipWith (f : α → α → α) (s v1 : Slice) (a : List α)
    (hs : s.off + s.len ≤ a.length) (hv : v1.off + v1.len ≤ a.length)
    (hle : s.len ≤ v1.len) :
    s.view (rewritten (fun _ x y => f x y) s v1 a s.len) =
      List.zipWith f (s.view a) (v1.view a) := by
  apply List.ext_getElem?
  intro i
  rw [List.getElem?_zipWith, view_getElem?, view_getElem?, view_getElem?]
  by_cases hi : i < s.len
  · have hiv : i < v1.len := by omega
    have h1 : s.off + i < a.length := by omega
    have h2 : v1.off + i < a.length := by omega
    rw [if_pos hi, if_pos hi, if_pos hiv,
      rewritten_getElem?_inside _ s v1 a s.len _ _ (by omega) (List.getElem?_eq_getElem h1)]
    simp [List.getD_eq_getElem?_getD, List.getElem?_eq_getElem h1,
      List.getElem?_eq_getElem h2]
  · rw [if_neg hi, if_neg hi]

/-- For a masked copy, the slice `s` of the rewritten memory is the indexed map that the
value-level operation computes from the original contents of the two slices. -/
theorem view_rewritten_mask (p : Nat → Bool) (s v : Slice) (a : List α)
    (hs : s.off + s.len ≤ a.length) (hv : v.off + v.len ≤ a.length)
    (hle : s.len ≤ v.len) :
    s.view (rewritten (fun i x y => if p i then y else x) s v a s.len) =
      (s.view a).mapIdx fun i x => if p i then (v.view a).getD i x else x := by
  apply List.ext_getElem?
  intro i
  rw [List.getElem?_mapIdx, view_getElem?, view_getElem?]
  by_cases hi : i < s.len
  · have hiv : i < v.len := by omega
    have h1 : s.off + i < a.length := by omega
    have h2 : v.off + i < a.length := by omega
    rw [if_pos hi, if_pos hi,
      rewritten_getElem?_inside _ s v a s.len _ _ (by omega) (List.getElem?_eq_getElem h1)]
    simp [List.getD_eq_getElem?_getD, List.getElem?_eq_getElem h1,
      List.getElem?_eq_getElem h2, view_getElem?, hiv]
  · rw [if_neg hi, if_neg hi]
    rfl

theorem rewritten_congr (f : Nat → α → α → α) (s v1 v2 : Slice) (a : List α)
    (hle1 : s.len ≤ v1.len) (hle2 : s.len ≤ v2.len)
    (hagree : ∀ i, i < s.len → (v1.view a)[i]? = (v2.view a)[i]?) :
    rewritten f s v1 a s.len = rewritten f s v2 a s.len := by
  apply List.ext_getElem?
  intro j
  rw [rewritten_getElem?, rewritten_getElem?]
  by_cases hj : s.off ≤ j ∧ j < s.off + s.len
  · have h := hagree (j - s.off) (by omega)
    rw [view_getElem?, view_getElem?, if_pos (by omega), if_pos (by omega)] at h
    simp only [List.getD_eq_getElem?_getD, h]
  · simp only [if_neg hj]

theorem loopFrom_pure (i k : Nat) (t : List α) :
    loopFrom (fun _ t => (pure t : Except Panic (List α))) i k t = pure t := by
  induction k generalizing i with
  | zero => rfl
  | succ k ih => rw [loopFrom, pure_bind, ih]

theorem SetMaskvMem_true (a : List α) (s v : Slice) :
    (SetMaskvMem a s v (fun _ => pure true) : Except Panic (List α)) = SetvMem a s v := by
  simp [SetMaskvMem, SetvMem]

theorem SetMaskvMem_false (a : List α) (s v : Slice) (hle : s.len ≤ v.len) :
    (SetMaskvMem a s v (fun _ => pure false) : Except Panic (List α)) = pure a := by
  rw [SetMaskvMem, acceptMem_of_le hle, pure_bind]
  simp [forRangeMem, forUpTo, loopFrom_pure]

/-! ### Maximum and minimum of numbers -/

theorem F64.Max_of_numbers (x y : F64) (hx : x ≠ F64.NaN) (hy : y ≠ F64.NaN) :
    x ≤ math.Max x y ∧ y ≤ math.Max x y ∧ (math.Max x y = x ∨ math.Max x y = y) := by
  cases x with
  | NaN => exact absurd rfl hx
  | num p =>
    cases y with
    | NaN => exact absurd rfl hy
    | num q =>
      refine ⟨?_, ?_, ?_⟩
      · show p ≤ max p q
        exact le_max_left p q
      · show q ≤ max p q
        exact le_max_right p q
      · show F64.num (max p q) = F64.num p ∨ F64.num (max p q) = F64.num q
        rcases le_total p q with h | h
        · exact Or.inr (by rw [max_eq_right h])
        · exact Or.inl (by rw [max_eq_left h])

theorem F64.Min_of_numbers (x y : F64) (hx : x ≠ F64.NaN) (hy : y ≠ F64.NaN) :
    math.Min x y ≤ x ∧ math.Min x y ≤ y ∧ (math.Min x y = x ∨ math.Min x y = y) := by
  cases x with
  | NaN => exact absurd rfl hx
  | num p =>
    cases y with
    | NaN => exact absurd rfl hy
    | num q =>
      refine ⟨?_, ?_, ?_⟩
      · show min p q ≤ p
        exact min_le_left p q
      · show min p q ≤ q
        exact min_le_right p q
      · show F64.num (min p q) = F64.num p ∨ F64.num (min p q) = F64.num q
        rcases le_total p q with h | h
        · exact Or.inl (by rw [min_eq_left h])
        · exact Or.inr (by rw [min_eq_right h])

/-! ### Reversal -/

/-- One iteration of the swap loop of `Rev`. -/
theorem Rev_body_eq (n i : Nat) (t : List α) (a b : α) (ha : t[i]? = some a)
    (hb : t[n - i - 1]? = some b) :
    (do
      let tmp ← index t i
      let t1 ← assign t i (← index t (n - i - 1))
      assign t1 (n - i - 1) tmp : Except Panic (List α)) =
      pure ((t.set i b).set (n - i - 1) a) := by
  have hlt : n - i - 1 < (t.set i b).length := by
    rcases Nat.lt_or_ge (n - i - 1) t.length with h | h
    · simpa using h
    · rw [List.getElem?_eq_none h] at hb
      cases hb
  simp [index_of_getElem? ha, index_of_getElem? hb, assign_of_getElem? _ ha,
    assign_of_lt _ hlt]

/-- Invariant of the swap loop: before iteration `i` the first `i` and the last `i`
positions already hold the reversed contents, the rest is untouched. -/
theorem Rev_loop (s : List α) :
    ∀ (k i : Nat) (t : List α), i + k = s.length / 2 → t.length = s.length →
      (∀ j, t[j]? = if j < i ∨ s.length - i ≤ j then s.reverse[j]? else s[j]?) →
      loopFrom (fun i t => do
        let tmp ← index t i
        let t1 ← assign t i (← index t (s.length - i - 1))
        assign t1 (s.length - i - 1) tmp) i k t = (pure s.reverse : Except Panic (List α)) := by
  intro k
  induction k with
  | zero =>
    intro i t hik ht hinv
    have : t = s.reverse := by
      apply List.ext_getElem?
      intro j
      rw [hinv j]
      split
      · rfl
      · rename_i hj
        have h1 : ¬ j < i := fun h => hj (Or.inl h)
        have h2 : ¬ s.length - i ≤ j := fun h => hj (Or.inr h)
        have hjl : j < s.length := by omega
        rw [List.getElem?_reverse hjl]
        congr 1
        omega
    simp [loopFrom, this]
  | succ k ih =>
    intro i t hik ht hinv
    have hi : i < s.length := by omega
    have hi2 : s.length - i - 1 < s.length := by omega
    have hti : t[i]? = some s[i] := by
      rw [hinv i, if_neg (by omega), List.getElem?_eq_getElem hi]
    have htj : t[s.length - i - 1]? = some (s[s.length - i - 1]) := by
      rw [hinv (s.length - i - 1), if_neg (by omega), List.getElem?_eq_getElem hi2]
    rw [loopFrom, Rev_body_eq s.length i t _ _ hti htj, pure_bind]
    apply ih (i + 1) _ (by omega) (by simpa using ht)
    intro j
    rw [List.getElem?_set, List.getElem?_set]
    by_cases hj1 : s.length - i - 1 = j
    · subst hj1
      have hlt : s.length - i - 1 < (t.set i s[s.length - i - 1]).length := by
        simpa [ht] using hi2
      rw [if_pos rfl, if_pos hlt, if_pos (by omega), List.getElem?_reverse hi2,
        List.getElem?_eq_getElem (by omega)]
      congr 1
      congr 1
      omega
    · rw [if_neg hj1]
      by_cases hj2 : i = j
      · subst hj2
        rw [if_pos rfl, if_pos (by omega), if_pos (by omega), List.getElem?_reverse hi,
          List.getElem?_eq_getElem (by omega)]
        congr 1
        congr 1
        omega
      · rw [if_neg hj2, hinv j]
        have : (j < i + 1 ∨ s.length - (i + 1) ≤ j) ↔ (j < i ∨ s.length - i ≤ j) := by omega
        simp only [this]

theorem Rev_eq (s : List α) : (Rev s : Except Panic (List α)) = pure s.reverse := by
  have := Rev_loop s (s.length / 2) 0 s (by omega) rfl (by
    intro j
    by_cases hj : j < s.length
    · rw [if_neg (by omega)]
    · rw [if_pos (by omega), List.getElem?_eq_none (by omega),
        List.getElem?_eq_none (by simp; omega)])
  simpa [Rev, forUpTo] using this

/-! ### Length preservation -/

theorem returnsLengthOf_pure (s t : List α) (h : t.length = s.length) :
    ReturnsLengthOf s (pure t) := by
  intro r hr
  cases hr
  exact h

theorem returnsLengthOf_bind {β : Type} (s : List α) (x : Except Panic β)
    (f : β → Except Panic (List α)) (h : ∀ a, ReturnsLengthOf s (f a)) :
    ReturnsLengthOf s (x >>= f) := by
  intro r hr
  cases x with
  | error e => cases hr
  | ok a => exact h a r hr

theorem returnsLengthOf_assign (s t : List α) (i : Nat) (x : α) (h : t.length = s.length) :
    ReturnsLengthOf s (assign t i x) := by
  intro r hr
  unfold assign at hr
  split at hr
  · cases hr
    simpa using h
  · cases hr

theorem returnsLengthOf_assign_bind (s t : List α) (i : Nat) (x : α)
    (f : List α → Except Panic (List α)) (ht : t.length = s.length)
    (h : ∀ t1 : List α, t1.length = s.length → ReturnsLengthOf s (f t1)) :
    ReturnsLengthOf s (assign t i x >>= f) := by
  intro r hr
  unfold assign at hr
  split at hr
  · exact h (t.set i x) (by simpa using ht) r hr
  · cases hr

theorem returnsLengthOf_loopFrom (s : List α) (body : Nat → List α → Except Panic (List α))
    (hb : ∀ i (t : List α), t.length = s.length → ReturnsLengthOf s (body i t)) :
    ∀ (k i : Nat) (t : List α), t.length = s.length →
      ReturnsLengthOf s (loopFrom body i k t) := by
  intro k
  induction k with
  | zero =>
    intro i t ht
    exact returnsLengthOf_pure s t ht
  | succ k ih =>
    intro i t ht r hr
    rw [loopFrom] at hr
    cases hbody : body i t with
    | error e =>
      rw [hbody] at hr
      cases hr
    | ok t1 =>
      rw [hbody] at hr
      exact ih (i + 1) t1 (hb i t ht t1 hbody) r hr

theorem returnsLengthOf_forUpTo (s : List α) (n : Nat)
    (body : Nat → List α → Except Panic (List α))
    (hb : ∀ i (t : List α), t.length = s.length → ReturnsLengthOf s (body i t)) :
    ReturnsLengthOf s (forUpTo n s body) :=
  returnsLengthOf_loopFrom s body hb n 0 s rfl

theorem returnsLengthOf_forRange (s : List α) (body : Nat → List α → Except Panic (List α))
    (hb : ∀ i (t : List α), t.length = s.length → ReturnsLengthOf s (body i t)) :
    ReturnsLengthOf s (forRange s body) :=
  returnsLengthOf_forUpTo s s.length body hb

/-! ### Inverse pairs of scalar operations -/

/-- Adding `c` and then subtracting it restores every vector on whose elements the two
roundings are exact. -/
theorem Plusl_Minusl_of_exact [Add α] [Sub α] (s : List α) (c : α)
    (hexact : ∀ x ∈ s, x + c - c = x) :
    (Plusl s c >>= fun r => Minusl r c : Except Panic (List α)) = pure s := by
  rw [Plusl_eq, pure_bind, Minusl_eq]
  congr 1
  rw [List.map_map]
  conv_rhs => rw [← List.map_id s]
  apply List.map_congr_left
  intro x hx
  simpa using hexact x hx

end Laws

end F64supp

/-! ## The claims -/

namespace F64supp

section Claims

variable {α : Type}

theorem failsIffShorter_intro (s v1 : List α) (x : Except Panic (List α))
    (herr : v1.length < s.length → x = Except.error (Panic.invalidArraySize v1.length s.length))
    (hok : s.length ≤ v1.length → ∃ r, x = Except.ok r) : FailsIffShorter s v1 x := by
  rcases Nat.lt_or_ge v1.length s.length with h | h
  · have hx := herr h
    refine ⟨⟨fun _ => h, fun _ => ⟨_, _, hx⟩⟩, fun _ => hx, ⟨?_, fun h2 => by omega⟩, ?_⟩
    · rintro ⟨r, hr⟩
      rw [hx] at hr
      cases hr
    · intro i n hi
      rw [hx] at hi
      cases hi
  · obtain ⟨r, hr⟩ := hok h
    refine ⟨⟨?_, fun h2 => by omega⟩, fun h2 => by omega, ⟨fun _ => h, fun _ => ⟨r, hr⟩⟩, ?_⟩
    · rintro ⟨a, b, hab⟩
      rw [hr] at hab
      cases hab
    · intro i n hi
      rw [hr] at hi
      cases hi

/-- Claim C1. Each two-vector operation (`Setv`, `SetMaskv` with any predicate, `Plusv`,
`Minusv`, `Timesv`, `Divv`, `Powv`, `Maxv`, `Minv`) aborts with the precondition panic of
`accept` if and only if `len(v1) < len(s)`; when `len(v1) >= len(s)` it returns normally,
and in no case does an index go out of range. -/
theorem two_vector_ops_fail_iff_shorter [Add α] [Sub α] [Mul α] [Div α] [math α]
    (s v1 : List α) (p : Nat → Bool) :
    FailsIffShorter s v1 (Setv s v1) ∧
    FailsIffShorter s v1 (SetMaskv s v1 fun i => pure (p i)) ∧
    FailsIffShorter s v1 (Plusv s v1) ∧
    FailsIffShorter s v1 (Minusv s v1) ∧
    FailsIffShorter s v1 (Timesv s v1) ∧
    FailsIffShorter s v1 (Divv s v1) ∧
    FailsIffShorter s v1 (Powv s v1) ∧
    FailsIffShorter s v1 (Maxv s v1) ∧
    FailsIffShorter s v1 (Minv s v1) :=
  ⟨failsIffShorter_intro s v1 _ (Setv_short s v1) fun h => ⟨_, Setv_eq s v1 h⟩,
   failsIffShorter_intro s v1 _ (SetMaskv_short s v1 _) fun h => ⟨_, SetMaskv_eq s v1 p h⟩,
   failsIffShorter_intro s v1 _ (Plusv_short s v1) fun h => ⟨_, Plusv_eq s v1 h⟩,
   failsIffShorter_intro s v1 _ (Minusv_short s v1) fun h => ⟨_, Minusv_eq s v1 h⟩,
   failsIffShorter_intro s v1 _ (Timesv_short s v1) fun h => ⟨_, Timesv_eq s v1 h⟩,
   failsIffShorter_intro s v1 _ (Divv_short s v1) fun h => ⟨_, Divv_eq s v1 h⟩,
   failsIffShorter_intro s v1 _ (Powv_short s v1) fun h => ⟨_, Powv_eq s v1 h⟩,
   failsIffShorter_intro s v1 _ (Maxv_short s v1) fun h => ⟨_, Maxv_eq s v1 h⟩,
   failsIffShorter_intro s v1 _ (Minv_short s v1) fun h => ⟨_, Minv_eq s v1 h⟩⟩

/-- The value-level two-vector operations are the operations on shared memory for slices
of which no element of `v1` is read after the loop has rewritten it, slices that do not
overlap among them: the slice `s` of the memory they leave is what the value-level
operation returns on the contents of the two slices. -/
theorem memory_runs_agree_without_overlap [Add α] [Sub α] [Mul α] [Div α] [math α]
    (a : List α) (s v1 : Slice) (p : Nat → Bool)
    (hs : s.off + s.len ≤ a.length) (hv : v1.off + v1.len ≤ a.length)
    (hle : s.len ≤ v1.len) (hsep : s.off ≤ v1.off ∨ v1.off + s.len ≤ s.off) :
    Except.map s.view (SetvMem a s v1 : Except Panic (List α)) = Setv (s.view a) (v1.view a) ∧
    Except.map s.view (PlusvMem a s v1 : Except Panic (List α)) = Plusv (s.view a) (v1.view a) ∧
    Except.map s.view (MinusvMem a s v1 : Except Panic (List α)) = Minusv (s.view a) (v1.view a) ∧
    Except.map s.view (TimesvMem a s v1 : Except Panic (List α)) = Timesv (s.view a) (v1.view a) ∧
    Except.map s.view (DivvMem a s v1 : Except Panic (List α)) = Divv (s.view a) (v1.view a) ∧
    Except.map s.view (PowvMem a s v1 : Except Panic (List α)) = Powv (s.view a) (v1.view a) ∧
    Except.map s.view (MaxvMem a s v1 : Except Panic (List α)) = Maxv (s.view a) (v1.view a) ∧
    Except.map s.view (MinvMem a s v1 : Except Panic (List α)) = Minv (s.view a) (v1.view a) ∧
    Except.map s.view (SetMaskvMem a s v1 fun i => pure (p i) : Except Panic (List α)) =
      SetMaskv (s.view a) (v1.view a) fun i => pure (p i) := by
  have hlen : (s.view a).length ≤ (v1.view a).length := by
    rw [view_length s a hs, view_length v1 a hv]
    exact hle
  refine ⟨?_, ?_, ?_, ?_, ?_, ?_, ?_, ?_, ?_⟩
  · rw [SetvMem_eq a s v1 hs hv hle hsep, Setv_eq _ _ hlen, ← view_rewritten_zipWith _ s v1 a hs hv hle]
    rfl
  · rw [PlusvMem_eq a s v1 hs hv hle hsep, Plusv_eq _ _ hlen, ← view_rewritten_zipWith _ s v1 a hs hv hle]
    rfl
  · rw [MinusvMem_eq a s v1 hs hv hle hsep, Minusv_eq _ _ hlen, ← view_rewritten_zipWith _ s v1 a hs hv hle]
    rfl
  · rw [TimesvMem_eq a s v1 hs hv hle hsep, Timesv_eq _ _ hlen, ← view_rewritten_zipWith _ s v1 a hs hv hle]
    rfl
  · rw [DivvMem_eq a s v1 hs hv hle hsep, Divv_eq _ _ hlen, ← view_rewritten_zipWith _ s v1 a hs hv hle]
    rfl
  · rw [PowvMem_eq a s v1 hs hv hle hsep, Powv_eq _ _ hlen, ← view_rewritten_zipWith _ s v1 a hs hv hle]
    rfl
  · rw [MaxvMem_eq a s v1 hs hv hle hsep, Maxv_eq _ _ hlen, ← view_rewritten_zipWith _ s v1 a hs hv hle]
    rfl
  · rw [MinvMem_eq a s v1 hs hv hle hsep, Minv_eq _ _ hlen, ← view_rewritten_zipWith _ s v1 a hs hv hle]
    rfl
  · rw [SetMaskvMem_eq a s v1 p hs hv hle hsep, SetMaskv_eq _ _ p hlen,
      ← view_rewritten_mask p s v1 a hs hv hle]
    rfl

/-- Counterexample to claim C2 as it is stated, for all vectors: on the array `[1,2,3,4]`,
with `s = a[1:4]` and `v1 = a[0:3]`, `Plusv(s, v1)` leaves `[3,6,10]` in `s`, because
`v1[1]` and `v1[2]` are read after the loop has rewritten them; the sums of the original
elements are `[3,5,7]`. -/
theorem arith_vector_ops_pointwise_counterexample :
    (PlusvMem ([1, 2, 3, 4] : List ℚ) ⟨1, 3⟩ ⟨0, 3⟩ : Except Panic (List ℚ)) =
      Except.ok [1, 3, 6, 10] ∧
    Slice.view ⟨1, 3⟩ ([1, 3, 6, 10] : List ℚ) = [3, 6, 10] ∧
    Slice.view ⟨1, 3⟩ ([1, 2, 3, 4] : List ℚ) = [2, 3, 4] ∧
    Slice.view ⟨0, 3⟩ ([1, 2, 3, 4] : List ℚ) = [1, 2, 3] ∧
    List.zipWith (· + ·) ([2, 3, 4] : List ℚ) [1, 2, 3] = [3, 5, 7] ∧
    ([3, 6, 10] : List ℚ) ≠ [3, 5, 7] := by
  refine ⟨?_, rfl, rfl, rfl, ?_, ?_⟩
  · simp [PlusvMem, acceptMem, forRangeMem, forUpTo, loopFrom, load, store, index, assign,
      pure, Except.pure, bind, Except.bind]
    norm_num
  · simp
    norm_num
  · simp

/-- Claim C2, amended. On a memory `a` holding both slices, with `len(v1) >= len(s)`, and
provided no element of `v1` is read after the loop has rewritten it (`v1` does not start
before `s`, or its first `len(s)` elements end before `s` starts; two slices that do not
overlap are such), `Plusv(s, v1)` returns with `s` of unchanged length holding
`s[i] + v1[i]` of the original elements at every index and the memory outside `s`
untouched; likewise `Minusv`, `Timesv`, `Divv` with `-`, `*`, `/`. This is what the
value-level operation returns on the contents of the two slices. -/
theorem arith_vector_ops_pointwise_without_overlap [Add α] [Sub α] [Mul α] [Div α]
    (a : List α) (s v1 : Slice)
    (hs : s.off + s.len ≤ a.length) (hv : v1.off + v1.len ≤ a.length)
    (hle : s.len ≤ v1.len) (hsep : s.off ≤ v1.off ∨ v1.off + s.len ≤ s.off) :
    (∃ r, (PlusvMem a s v1 : Except Panic (List α)) = Except.ok r ∧
      r.length = a.length ∧ (s.view r).length = s.len ∧
      (∀ (i : Nat) (x y : α), (s.view a)[i]? = some x → (v1.view a)[i]? = some y →
        (s.view r)[i]? = some (x + y)) ∧
      (∀ j, j < s.off ∨ s.off + s.len ≤ j → r[j]? = a[j]?) ∧
      (Plusv (s.view a) (v1.view a) : Except Panic (List α)) = Except.ok (s.view r)) ∧
    (∃ r, (MinusvMem a s v1 : Except Panic (List α)) = Except.ok r ∧
      r.length = a.length ∧ (s.view r).length = s.len ∧
      (∀ (i : Nat) (x y : α), (s.view a)[i]? = some x → (v1.view a)[i]? = some y →
        (s.view r)[i]? = some (x - y)) ∧
      (∀ j, j < s.off ∨ s.off + s.len ≤ j → r[j]? = a[j]?) ∧
      (Minusv (s.view a) (v1.view a) : Except Panic (List α)) = Except.ok (s.view r)) ∧
    (∃ r, (TimesvMem a s v1 : Except Panic (List α)) = Except.ok r ∧
      r.length = a.length ∧ (s.view r).length = s.len ∧
      (∀ (i : Nat) (x y : α), (s.view a)[i]? = some x → (v1.view a)[i]? = some y →
        (s.view r)[i]? = some (x * y)) ∧
      (∀ j, j < s.off ∨ s.off + s.len ≤ j → r[j]? = a[j]?) ∧
      (Timesv (s.view a) (v1.view a) : Except Panic (List α)) = Except.ok (s.view r)) ∧
    (∃ r, (DivvMem a s v1 : Except Panic (List α)) = Except.ok r ∧
      r.length = a.length ∧ (s.view r).length = s.len ∧
      (∀ (i : Nat) (x y : α), (s.view a)[i]? = some x → (v1.view a)[i]? = some y →
        (s.view r)[i]? = some (x / y)) ∧
      (∀ j, j < s.off ∨ s.off + s.len ≤ j → r[j]? = a[j]?) ∧
      (Divv (s.view a) (v1.view a) : Except Panic (List α)) = Except.ok (s.view r)) := by
  refine ⟨?_, ?_, ?_, ?_⟩
  · refine ⟨_, PlusvMem_eq a s v1 hs hv hle hsep, (rewritten_spec _ s v1 a hs).1,
      (rewritten_spec _ s v1 a hs).2.1, (rewritten_spec _ s v1 a hs).2.2.1,
      (rewritten_spec _ s v1 a hs).2.2.2, ?_⟩
    rw [Plusv_eq _ _ (by rw [view_length s a hs, view_length v1 a hv]; exact hle),
      view_rewritten_zipWith _ s v1 a hs hv hle]
    rfl
  · refine ⟨_, MinusvMem_eq a s v1 hs hv hle hsep, (rewritten_spec _ s v1 a hs).1,
      (rewritten_spec _ s v1 a hs).2.1, (rewritten_spec _ s v1 a hs).2.2.1,
      (rewritten_spec _ s v1 a hs).2.2.2, ?_⟩
    rw [Minusv_eq _ _ (by rw [view_length s a hs, view_length v1 a hv]; exact hle),
      view_rewritten_zipWith _ s v1 a hs hv hle]
    rfl
  · refine ⟨_, TimesvMem_eq a s v1 hs hv hle hsep, (rewritten_spec _ s v1 a hs).1,
      (rewritten_spec _ s v1 a hs).2.1, (rewritten_spec _ s v1 a hs).2.2.1,
      (rewritten_spec _ s v1 a hs).2.2.2, ?_⟩
    rw [Timesv_eq _ _ (by rw [view_length s a hs, view_length v1 a hv]; exact hle),
      view_rewritten_zipWith _ s v1 a hs hv hle]
    rfl
  · refine ⟨_, DivvMem_eq a s v1 hs hv hle hsep, (rewritten_spec _ s v1 a hs).1,
      (rewritten_spec _ s v1 a hs).2.1, (rewritten_spec _ s v1 a hs).2.2.1,
      (rewritten_spec _ s v1 a hs).2.2.2, ?_⟩
    rw [Divv_eq _ _ (by rw [view_length s a hs, view_length v1 a hv]; exact hle),
      view_rewritten_zipWith _ s v1 a hs hv hle]
    rfl

/-- The scenario of the specification, obtained from
`arith_vector_ops_pointwise_without_overlap`: with `s = [1,2,3]` and `v1 = [10,20,30]` next
to each other in the memory, `Plusv(s, v1)` leaves `[11,22,33]` in `s`. -/
theorem arith_vector_ops_pointwise_without_overlap_witness :
    ∃ r, (PlusvMem ([1, 2, 3, 10, 20, 30] : List ℚ) ⟨0, 3⟩ ⟨3, 3⟩ :
        Except Panic (List ℚ)) = Except.ok r ∧
      Slice.view ⟨0, 3⟩ r = [11, 22, 33] := by
  obtain ⟨r, hr, -, hlen, hpt, -, -⟩ :=
    (arith_vector_ops_pointwise_without_overlap ([1, 2, 3, 10, 20, 30] : List ℚ)
      ⟨0, 3⟩ ⟨3, 3⟩ (by decide) (by decide) (by decide) (Or.inl (by decide))).1
  refine ⟨r, hr, ?_⟩
  apply List.ext_getElem?
  intro i
  by_cases hi : i < 3
  · interval_cases i
    · rw [hpt 0 1 10 rfl rfl]
      norm_num
    · rw [hpt 1 2 20 rfl rfl]
      norm_num
    · rw [hpt 2 3 30 rfl rfl]
      norm_num
  · rw [List.getElem?_eq_none (by rw [hlen]; exact Nat.le_of_not_lt hi),
      List.getElem?_eq_none (by simpa using Nat.le_of_not_lt hi)]

/-- Length and elements of an indexed map. -/
theorem mapIdx_pointwise (h : Nat → α → α) (s : List α) :
    (s.mapIdx h).length = s.length ∧
    ∀ i (hs : i < s.length) (hr : i < (s.mapIdx h).length), (s.mapIdx h)[i] = h i s[i] := by
  refine ⟨by simp, ?_⟩
  intro i hs hr
  simp

/-- Claim C3. For a pure indexed-operator `o`, every `Opi` variant returns at each index
`i` the value `op(s[i], o(i, s[i]))` computed from the vector as it was before the call:
`o` receives the pre-update element, and the elements already rewritten at lower indices
play no part. -/
theorem opi_ops_use_pre_update_value [Add α] [Sub α] [Mul α] [Div α] [math α]
    (s : List α) (o : Nat → α → α) :
    (∃ r, (PlusOpi s fun i x => pure (o i x) : Except Panic (List α)) = Except.ok r ∧
      r.length = s.length ∧
      ∀ i (hs : i < s.length) (hr : i < r.length), r[i] = s[i] + o i s[i]) ∧
    (∃ r, (MinusOpi s fun i x => pure (o i x) : Except Panic (List α)) = Except.ok r ∧
      r.length = s.length ∧
      ∀ i (hs : i < s.length) (hr : i < r.length), r[i] = s[i] - o i s[i]) ∧
    (∃ r, (TimesOpi s fun i x => pure (o i x) : Except Panic (List α)) = Except.ok r ∧
      r.length = s.length ∧
      ∀ i (hs : i < s.length) (hr : i < r.length), r[i] = s[i] * o i s[i]) ∧
    (∃ r, (DivOpi s fun i x => pure (o i x) : Except Panic (List α)) = Except.ok r ∧
      r.length = s.length ∧
      ∀ i (hs : i < s.length) (hr : i < r.length), r[i] = s[i] / o i s[i]) ∧
    (∃ r, (PowOpi s fun i x => pure (o i x) : Except Panic (List α)) = Except.ok r ∧
      r.length = s.length ∧
      ∀ i (hs : i < s.length) (hr : i < r.length), r[i] = math.Pow s[i] (o i s[i])) ∧
    (∃ r, (MaxOpi s fun i x => pure (o i x) : Except Panic (List α)) = Except.ok r ∧
      r.length = s.length ∧
      ∀ i (hs : i < s.length) (hr : i < r.length), r[i] = math.Max s[i] (o i s[i])) ∧
    (∃ r, (MinOpi s fun i x => pure (o i x) : Except Panic (List α)) = Except.ok r ∧
      r.length = s.length ∧
      ∀ i (hs : i < s.length) (hr : i < r.length), r[i] = math.Min s[i] (o i s[i])) :=
  ⟨⟨_, PlusOpi_eq s o, mapIdx_pointwise _ s⟩,
   ⟨_, MinusOpi_eq s o, mapIdx_pointwise _ s⟩,
   ⟨_, TimesOpi_eq s o, mapIdx_pointwise _ s⟩,
   ⟨_, DivOpi_eq s o, mapIdx_pointwise _ s⟩,
   ⟨_, PowOpi_eq s o, mapIdx_pointwise _ s⟩,
   ⟨_, MaxOpi_eq s o, mapIdx_pointwise _ s⟩,
   ⟨_, MinOpi_eq s o, mapIdx_pointwise _ s⟩⟩

/-- Claim C4. For every vector `s` of length `n` (empty and odd lengths included), `Rev(s)`
returns the list reversal of `s`: a vector of length `n` whose element `i` is
`s[n-1-i]`. -/
theorem Rev_is_reversal (s : List α) :
    (Rev s : Except Panic (List α)) = Except.ok s.reverse ∧
    ∃ r, (Rev s : Except Panic (List α)) = Except.ok r ∧ r.length = s.length ∧
      ∀ i (hs : i < s.length) (hr : i < r.length), r[i] = s[s.length - 1 - i] := by
  refine ⟨Rev_eq s, s.reverse, Rev_eq s, by simp, ?_⟩
  intro i hs hr
  simp [List.getElem_reverse]

/-- The scenario of the specification, obtained from `Rev_is_reversal`:
`Rev([1,2,3,4]) = [4,3,2,1]`. -/
theorem Rev_is_reversal_witness :
    (Rev [1, 2, 3, 4] : Except Panic (List ℚ)) = Except.ok [4, 3, 2, 1] :=
  (Rev_is_reversal ([1, 2, 3, 4] : List ℚ)).1

/-- Claim C5. `Rev(Rev(s))` is `s`, for every vector `s`. -/
theorem Rev_Rev (s : List α) :
    (Rev s >>= fun r => Rev r : Except Panic (List α)) = Except.ok s := by
  rw [Rev_eq, pure_bind, Rev_eq, List.reverse_reverse]
  rfl

/-- Claim C6. Whenever an operation of the library returns normally, the vector it
returns has the length of its primary argument `s`, whatever the second vector, the
scalar, the producer, the operator or the predicate is (function values that panic
included). -/
theorem ops_preserve_length [Add α] [Sub α] [Mul α] [Div α] [Neg α] [NatCast α] [math α]
    (s v1 : List α) (value : α) (f : Nat → Except Panic α) (g : α → Except Panic α)
    (oi : Nat → α → Except Panic α) (p : Nat → Except Panic Bool) :
    ReturnsLengthOf s (Apply s f) ∧
    ReturnsLengthOf s (ApplyOp s g) ∧
    ReturnsLengthOf s (ApplyOpi s oi) ∧
    ReturnsLengthOf s (Ident s) ∧
    ReturnsLengthOf s (Setl s value) ∧
    ReturnsLengthOf s (Setv s v1) ∧
    ReturnsLengthOf s (SetMaskl s value p) ∧
    ReturnsLengthOf s (SetMaskv s v1 p) ∧
    ReturnsLengthOf s (Plusv s v1) ∧
    ReturnsLengthOf s (Plusl s value) ∧
    ReturnsLengthOf s (PlusOp s f) ∧
    ReturnsLengthOf s (PlusOpi s oi) ∧
    ReturnsLengthOf s (Minusv s v1) ∧
    ReturnsLengthOf s (Minusl s value) ∧
    ReturnsLengthOf s (MinusOp s f) ∧
    ReturnsLengthOf s (MinusOpi s oi) ∧
    ReturnsLengthOf s (Timesv s v1) ∧
    ReturnsLengthOf s (Timesl s value) ∧
    ReturnsLengthOf s (TimesOp s f) ∧
    ReturnsLengthOf s (TimesOpi s oi) ∧
    ReturnsLengthOf s (Divv s v1) ∧
    ReturnsLengthOf s (Divl s value) ∧
    ReturnsLengthOf s (DivOp s f) ∧
    ReturnsLengthOf s (DivOpi s oi) ∧
    ReturnsLengthOf s (Powv s v1) ∧
    ReturnsLengthOf s (Powl s value) ∧
    ReturnsLengthOf s (PowOp s f) ∧
    ReturnsLengthOf s (PowOpi s oi) ∧
    ReturnsLengthOf s (Maxv s v1) ∧
    ReturnsLengthOf s (Maxl s value) ∧
    ReturnsLengthOf s (MaxOp s f) ∧
    ReturnsLengthOf s (MaxOpi s oi) ∧
    ReturnsLengthOf s (Minv s v1) ∧
    ReturnsLengthOf s (Minl s value) ∧
    ReturnsLengthOf s (MinOp s f) ∧
    ReturnsLengthOf s (MinOpi s oi) ∧
    ReturnsLengthOf s (Rev s) ∧
    ReturnsLengthOf s (Negv s) ∧
    ReturnsLengthOf s (Abs s) ∧
    ReturnsLengthOf s (Idivl s value) ∧
    ReturnsLengthOf s (Log s) ∧
    ReturnsLengthOf s (Exp s) ∧
    ReturnsLengthOf s (Expl s value) := by
  refine ⟨?_,
    ?_,
    ?_,
    ?_,
    ?_,
    ?_,
    ?_,
    ?_,
    ?_,
    ?_,
    ?_,
    ?_,
    ?_,
    ?_,
    ?_,
    ?_,
    ?_,
    ?_,
    ?_,
    ?_,
    ?_,
    ?_,
    ?_,
    ?_,
    ?_,
    ?_,
    ?_,
    ?_,
    ?_,
    ?_,
    ?_,
    ?_,
    ?_,
    ?_,
    ?_,
    ?_,
    ?_,
    ?_,
    ?_,
    ?_,
    ?_,
    ?_,
    ?_⟩ <;>
  repeat (first
    | exact returnsLengthOf_assign _ _ _ _ ‹_›
    | exact returnsLengthOf_pure _ _ ‹_›
    | (apply returnsLengthOf_forRange; intro i t ht)
    | (apply returnsLengthOf_forUpTo; intro i t ht)
    | (apply returnsLengthOf_assign_bind _ _ _ _ _ ‹_›; intro t1 ht1)
    | (apply returnsLengthOf_bind; intro a)
    | split)

/-- Claim C7. For a pure predicate `p`, `SetMaskl(s, c, p)` returns a vector of the length
of `s` that holds `c` at every index where `p` holds and the unchanged `s[i]` at every
index where it does not. -/
theorem SetMaskl_sets_where_predicate_holds (s : List α) (c : α) (p : Nat → Bool) :
    ∃ r, (SetMaskl s c fun i => pure (p i) : Except Panic (List α)) = Except.ok r ∧
      r.length = s.length ∧
      ∀ i (hs : i < s.length) (hr : i < r.length),
        (p i = true → r[i] = c) ∧ (p i = false → r[i] = s[i]) := by
  refine ⟨_, SetMaskl_eq s c p, by simp, ?_⟩
  intro i hs hr
  constructor <;> intro hp <;> simp [hp]

/-- The scenario of the specification, obtained from
`SetMaskl_sets_where_predicate_holds`: on `[0,0,0,0]`, with the predicate that holds at
the even indices and the value `9`, the result is `[9,0,9,0]`. -/
theorem SetMaskl_sets_where_predicate_holds_witness :
    (SetMaskl [0, 0, 0, 0] 9 fun i => pure (i % 2 == 0) : Except Panic (List ℚ)) =
      Except.ok [9, 0, 9, 0] := by
  obtain ⟨r, hr, hlen, hpt⟩ :=
    SetMaskl_sets_where_predicate_holds ([0, 0, 0, 0] : List ℚ) 9 fun i => i % 2 == 0
  rw [hr]
  congr 1
  apply List.ext_getElem (by simpa using hlen)
  intro i h1 h2
  have h3 : i < 4 := by simpa using h2
  have h := hpt i h3 h1
  interval_cases i
  · exact h.1 (by decide)
  · exact h.2 (by decide)
  · exact h.1 (by decide)
  · exact h.2 (by decide)

/-- Counterexample to claim C8 as it is stated, for all vectors: on the array `[1,2,3,4]`,
with `s = a[1:4]` and `v = a[0:3]`, `Setv(s, v)` and `SetMaskv(s, v, p)` with the
always-true predicate leave `[1,1,1]` in `s`, because each `v[i]` read after the first is an
element the loop has just written; the elements of `v` were `[1,2,3]`. -/
theorem SetMaskv_sets_where_predicate_holds_counterexample :
    (SetvMem ([1, 2, 3, 4] : List ℚ) ⟨1, 3⟩ ⟨0, 3⟩ : Except Panic (List ℚ)) =
      Except.ok [1, 1, 1, 1] ∧
    (SetMaskvMem ([1, 2, 3, 4] : List ℚ) ⟨1, 3⟩ ⟨0, 3⟩ fun _ => pure true :
      Except Panic (List ℚ)) = Except.ok [1, 1, 1, 1] ∧
    Slice.view ⟨1, 3⟩ ([1, 1, 1, 1] : List ℚ) = [1, 1, 1] ∧
    Slice.view ⟨0, 3⟩ ([1, 2, 3, 4] : List ℚ) = [1, 2, 3] ∧
    ([1, 1, 1] : List ℚ) ≠ [1, 2, 3] := by
  refine ⟨?_, ?_, rfl, rfl, ?_⟩
  · simp [SetvMem, acceptMem, forRangeMem, forUpTo, loopFrom, load, store, index, assign,
      pure, Except.pure, bind, Except.bind]
  · simp [SetMaskvMem, acceptMem, forRangeMem, forUpTo, loopFrom, load, store, index, assign,
      pure, Except.pure, bind, Except.bind]
  · simp

/-- Claim C8, amended. On a memory `a` holding both slices, with `len(v) >= len(s)` and a
pure predicate `p`: provided no element of `v` is read after the loop has rewritten it
(`v` does not start before `s`, or its first `len(s)` elements end before `s` starts; two
slices that do not overlap are such), `SetMaskv(s, v, p)` returns with `s` holding `v[i]`
where `p` holds and the unchanged `s[i]` where it does not, the memory outside `s`
untouched, and `Setv(s, v)` returns with `s` holding `v[i]` at every index; both as the
value-level operations on the contents of the two slices. For all slices, `SetMaskv` with
the always-true predicate is `Setv(s, v)`, and with the always-false predicate it returns
with the memory unchanged. -/
theorem SetMaskv_sets_where_predicate_holds_without_overlap (a : List α) (s v : Slice)
    (p : Nat → Bool) (hs : s.off + s.len ≤ a.length) (hv : v.off + v.len ≤ a.length)
    (hle : s.len ≤ v.len) :
    (s.off ≤ v.off ∨ v.off + s.len ≤ s.off →
      (∃ r, (SetMaskvMem a s v fun i => pure (p i) : Except Panic (List α)) = Except.ok r ∧
        r.length = a.length ∧ (s.view r).length = s.len ∧
        (∀ (i : Nat) (x y : α), (s.view a)[i]? = some x → (v.view a)[i]? = some y →
          (p i = true → (s.view r)[i]? = some y) ∧
          (p i = false → (s.view r)[i]? = some x)) ∧
        (∀ j, j < s.off ∨ s.off + s.len ≤ j → r[j]? = a[j]?) ∧
        (SetMaskv (s.view a) (v.view a) fun i => pure (p i) : Except Panic (List α)) =
          Except.ok (s.view r)) ∧
      (∃ r, (SetvMem a s v : Except Panic (List α)) = Except.ok r ∧
        r.length = a.length ∧ (s.view r).length = s.len ∧
        (∀ (i : Nat) (x y : α), (s.view a)[i]? = some x → (v.view a)[i]? = some y →
          (s.view r)[i]? = some y) ∧
        (∀ j, j < s.off ∨ s.off + s.len ≤ j → r[j]? = a[j]?) ∧
        (Setv (s.view a) (v.view a) : Except Panic (List α)) = Except.ok (s.view r))) ∧
    (SetMaskvMem a s v fun _ => pure true : Except Panic (List α)) = SetvMem a s v ∧
    (SetMaskvMem a s v fun _ => pure false : Except Panic (List α)) = Except.ok a := by
  have hlen : (s.view a).length ≤ (v.view a).length := by
    rw [view_length s a hs, view_length v a hv]
    exact hle
  refine ⟨fun hsep => ⟨?_, ?_⟩, SetMaskvMem_true a s v, SetMaskvMem_false a s v hle⟩
  · refine ⟨_, SetMaskvMem_eq a s v p hs hv hle hsep, (rewritten_spec _ s v a hs).1,
      (rewritten_spec _ s v a hs).2.1, ?_, (rewritten_spec _ s v a hs).2.2.2, ?_⟩
    · intro i x y hx hy
      have h := (rewritten_spec (fun i x y => if p i then y else x) s v a hs).2.2.1 i x y hx hy
      constructor
      · intro hp
        simpa [hp] using h
      · intro hp
        simpa [hp] using h
    · rw [SetMaskv_eq _ _ p hlen, view_rewritten_mask p s v a hs hv hle]
      rfl
  · refine ⟨_, SetvMem_eq a s v hs hv hle hsep, (rewritten_spec _ s v a hs).1,
      (rewritten_spec _ s v a hs).2.1, (rewritten_spec _ s v a hs).2.2.1,
      (rewritten_spec _ s v a hs).2.2.2, ?_⟩
    rw [Setv_eq _ _ hlen, view_rewritten_zipWith _ s v a hs hv hle]
    rfl

/-- An instance of `SetMaskv_sets_where_predicate_holds_without_overlap`: with
`s = [0,0,0]` and `v = [5,6,7,8]` next to each other in the memory and the predicate that
holds at the even indices, the masked copy leaves `[5,0,7]` in `s`. -/
theorem SetMaskv_sets_where_predicate_holds_without_overlap_witness :
    ∃ r, (SetMaskvMem ([0, 0, 0, 5, 6, 7, 8] : List ℚ) ⟨0, 3⟩ ⟨3, 4⟩
        fun i => pure (i % 2 == 0) : Except Panic (List ℚ)) = Except.ok r ∧
      Slice.view ⟨0, 3⟩ r = [5, 0, 7] := by
  obtain ⟨r, hr, -, hlen, hpt, -, -⟩ :=
    ((SetMaskv_sets_where_predicate_holds_without_overlap ([0, 0, 0, 5, 6, 7, 8] : List ℚ)
      ⟨0, 3⟩ ⟨3, 4⟩ (fun i => i % 2 == 0) (by decide) (by decide) (by decide)).1
        (Or.inl (by decide))).1
  refine ⟨r, hr, ?_⟩
  apply List.ext_getElem?
  intro i
  by_cases hi : i < 3
  · interval_cases i
    · exact (hpt 0 0 5 rfl rfl).1 (by decide)
    · exact (hpt 1 0 6 rfl rfl).2 (by decide)
    · exact (hpt 2 0 7 rfl rfl).1 (by decide)
  · rw [List.getElem?_eq_none (by rw [hlen]; exact Nat.le_of_not_lt hi),
      List.getElem?_eq_none (by simpa using Nat.le_of_not_lt hi)]

/-- Claim C9. Over exact arithmetic (any additive group: the integers, the rationals),
`Minusl(Plusl(s, c), c)` is `s` for every vector `s` and scalar `c`. (For arbitrary
arithmetic the same holds wherever `x + c - c = x` on the elements of `s`:
`Plusl_Minusl_of_exact`.) -/
theorem Plusl_then_Minusl_restores [AddGroup α] (s : List α) (c : α) :
    (Plusl s c >>= fun r => Minusl r c : Except Panic (List α)) = Except.ok s :=
  Plusl_Minusl_of_exact s c fun x _ => add_sub_cancel_right x c

/-- Claim C11. `Setv(s, s)` returns `s` for every vector `s`, never failing; this holds
both when the second parameter is read as a value and when it is read from the very
slice being written (`SetvSelf`). In particular, run after `Ident(s)`, the self-copy does
not fail and leaves the result of `Ident(s)`. -/
theorem Setv_self_is_noop [NatCast α] (s : List α) :
    (Setv s s : Except Panic (List α)) = Except.ok s ∧
    (SetvSelf s : Except Panic (List α)) = Except.ok s ∧
    (Ident s >>= fun r => Setv r r : Except Panic (List α)) = Ident s ∧
    (Ident s >>= fun r => SetvSelf r : Except Panic (List α)) = Ident s ∧
    ∃ r, (Ident s : Except Panic (List α)) = Except.ok r := by
  refine ⟨Setv_self_eq s, SetvSelf_eq s, ?_, ?_, _, Ident_eq s⟩
  · rw [Ident_eq, pure_bind, Setv_self_eq]
  · rw [Ident_eq, pure_bind, SetvSelf_eq]

/-- Counterexample to claim C12 as it is stated, for all vectors. With NaN: for
`s = [NaN, 1]` and the separate `v1 = [1, NaN]`, `Maxv(s, v1)` leaves `[NaN, NaN]` in `s`,
and NaN is not `>=` the operand `1`. With overlapping slices: on the array `[5,1,1,1]`
with `s = a[1:4]` and `v1 = a[0:3]`, `Maxv(s, v1)` leaves `[5,5,5]` in `s`, and at index 1
the result `5` is neither of the operands `s[1] = 1` and `v1[1] = 1`. -/
theorem Maxv_is_pointwise_maximum_counterexample :
    (MaxvMem [F64.NaN, F64.num 1, F64.num 1, F64.NaN] ⟨0, 2⟩ ⟨2, 2⟩ :
      Except Panic (List F64)) = Except.ok [F64.NaN, F64.NaN, F64.num 1, F64.NaN] ∧
    ¬ (F64.num 1 ≤ F64.NaN) ∧
    (MaxvMem [F64.num 5, F64.num 1, F64.num 1, F64.num 1] ⟨1, 3⟩ ⟨0, 3⟩ :
      Except Panic (List F64)) = Except.ok [F64.num 5, F64.num 5, F64.num 5, F64.num 5] ∧
    Slice.view ⟨1, 3⟩ [F64.num 5, F64.num 1, F64.num 1, F64.num 1] =
      [F64.num 1, F64.num 1, F64.num 1] ∧
    Slice.view ⟨0, 3⟩ [F64.num 5, F64.num 1, F64.num 1, F64.num 1] =
      [F64.num 5, F64.num 1, F64.num 1] ∧
    F64.num 5 ≠ F64.num 1 := by
  refine ⟨rfl, fun h => h, rfl, rfl, rfl, ?_⟩
  intro h
  injection h with h
  norm_num at h

/-- Claim C12, amended. On a memory `a` of numbers and NaN holding both slices, with
`len(v1) >= len(s)`, provided no compared element is NaN and no element of `v1` is read
after the loop has rewritten it (`v1` does not start before `s`, or its first `len(s)`
elements end before `s` starts; two slices that do not overlap are such), `Maxv(s, v1)`
returns with `s` of unchanged length whose element `i` is `math.Max(s[i], v1[i])` of the
original elements: it is `>=` both operands and equal to one of them. -/
theorem Maxv_is_pointwise_maximum_of_numbers (a : List F64) (s v1 : Slice)
    (hs : s.off + s.len ≤ a.length) (hv : v1.off + v1.len ≤ a.length)
    (hle : s.len ≤ v1.len) (hsep : s.off ≤ v1.off ∨ v1.off + s.len ≤ s.off)
    (hnum : ∀ (i : Nat) (x y : F64), (s.view a)[i]? = some x → (v1.view a)[i]? = some y →
      x ≠ F64.NaN ∧ y ≠ F64.NaN) :
    ∃ r, (MaxvMem a s v1 : Except Panic (List F64)) = Except.ok r ∧
      r.length = a.length ∧ (s.view r).length = s.len ∧
      (∀ (i : Nat) (x y : F64), (s.view a)[i]? = some x → (v1.view a)[i]? = some y →
        ∃ z, (s.view r)[i]? = some z ∧ z = math.Max x y ∧
          x ≤ z ∧ y ≤ z ∧ (z = x ∨ z = y)) ∧
      (∀ j, j < s.off ∨ s.off + s.len ≤ j → r[j]? = a[j]?) := by
  refine ⟨_, MaxvMem_eq a s v1 hs hv hle hsep, (rewritten_spec _ s v1 a hs).1,
    (rewritten_spec _ s v1 a hs).2.1, ?_, (rewritten_spec _ s v1 a hs).2.2.2⟩
  intro i x y hx hy
  obtain ⟨hxn, hyn⟩ := hnum i x y hx hy
  exact ⟨_, (rewritten_spec _ s v1 a hs).2.2.1 i x y hx hy, rfl,
    F64.Max_of_numbers x y hxn hyn⟩

/-- The scenario of the specification, obtained from
`Maxv_is_pointwise_maximum_of_numbers`: with `s = [3,1,2]` and `v1 = [2,2,2]` next to each
other in the memory, `Maxv(s, v1)` leaves `[3,2,2]` in `s`. -/
theorem Maxv_is_pointwise_maximum_of_numbers_witness :
    ∃ r, (MaxvMem [F64.num 3, F64.num 1, F64.num 2, F64.num 2, F64.num 2, F64.num 2]
        ⟨0, 3⟩ ⟨3, 3⟩ : Except Panic (List F64)) = Except.ok r ∧
      Slice.view ⟨0, 3⟩ r = [F64.num 3, F64.num 2, F64.num 2] := by
  have hnum : ∀ (i : Nat) (x y : F64),
      (Slice.view ⟨0, 3⟩
        [F64.num 3, F64.num 1, F64.num 2, F64.num 2, F64.num 2, F64.num 2])[i]? = some x →
      (Slice.view ⟨3, 3⟩
        [F64.num 3, F64.num 1, F64.num 2, F64.num 2, F64.num 2, F64.num 2])[i]? = some y →
      x ≠ F64.NaN ∧ y ≠ F64.NaN := by
    intro i x y hx hy
    rcases i with _ | _ | _ | i
    · cases hx
      cases hy
      exact ⟨fun h => F64.noConfusion h, fun h => F64.noConfusion h⟩
    · cases hx
      cases hy
      exact ⟨fun h => F64.noConfusion h, fun h => F64.noConfusion h⟩
    · cases hx
      cases hy
      exact ⟨fun h => F64.noConfusion h, fun h => F64.noConfusion h⟩
    · cases hx
  obtain ⟨r, hr, -, hlen, hpt, -⟩ :=
    Maxv_is_pointwise_maximum_of_numbers
      [F64.num 3, F64.num 1, F64.num 2, F64.num 2, F64.num 2, F64.num 2] ⟨0, 3⟩ ⟨3, 3⟩
      (by decide) (by decide) (by decide) (Or.inl (by decide)) hnum
  refine ⟨r, hr, ?_⟩
  apply List.ext_getElem?
  intro i
  by_cases hi : i < 3
  · interval_cases i
    · obtain ⟨z, hz, hmax, -⟩ := hpt 0 (F64.num 3) (F64.num 2) rfl rfl
      rw [hz, hmax]
      rfl
    · obtain ⟨z, hz, hmax, -⟩ := hpt 1 (F64.num 1) (F64.num 2) rfl rfl
      rw [hz, hmax]
      rfl
    · obtain ⟨z, hz, hmax, -⟩ := hpt 2 (F64.num 2) (F64.num 2) rfl rfl
      rw [hz, hmax]
      rfl
  · rw [List.getElem?_eq_none (by rw [hlen]; exact Nat.le_of_not_lt hi),
      List.getElem?_eq_none (by simpa using Nat.le_of_not_lt hi)]

/-- Counterexample to claim C13 as it is stated, for all vectors. With NaN:
`Minl([NaN, 1], 0)` returns `[NaN, 0]`, and NaN is not `<=` the operand `0`. With
overlapping slices: on the array `[0,5,5,5]` with `s = a[1:4]` and `v1 = a[0:3]`,
`Minv(s, v1)` leaves `[0,0,0]` in `s`, and at index 1 the result `0` is not the minimum
of the operands `s[1] = 5` and `v1[1] = 5`. -/
theorem Min_variants_are_pointwise_minimum_counterexample :
    (Minl [F64.NaN, F64.num 1] (F64.num 0) : Except Panic (List F64)) =
      Except.ok [F64.NaN, F64.num 0] ∧
    ¬ (F64.NaN ≤ F64.num 0) ∧
    (MinvMem [F64.num 0, F64.num 5, F64.num 5, F64.num 5] ⟨1, 3⟩ ⟨0, 3⟩ :
      Except Panic (List F64)) = Except.ok [F64.num 0, F64.num 0, F64.num 0, F64.num 0] ∧
    Slice.view ⟨1, 3⟩ [F64.num 0, F64.num 5, F64.num 5, F64.num 5] =
      [F64.num 5, F64.num 5, F64.num 5] ∧
    Slice.view ⟨0, 3⟩ [F64.num 0, F64.num 5, F64.num 5, F64.num 5] =
      [F64.num 0, F64.num 5, F64.num 5] ∧
    math.Min (F64.num 5) (F64.num 5) = F64.num 5 ∧
    F64.num 0 ≠ F64.num 5 := by
  refine ⟨rfl, fun h => h, rfl, rfl, rfl, rfl, ?_⟩
  intro h
  injection h with h
  norm_num at h

/-- Claim C13, amended. On numbers and NaN, provided no compared element is NaN, each of
the four `Min` variants sets every element to `math.Min` of its current value and the
right-hand operand (`v1[i]`, the scalar, `o(i)`, `o(i, s[i])`): the result is `<=` both
operands and equal to one of them. For `Minv` this is on a memory `a` holding both slices,
with `len(v1) >= len(s)`, and provided no element of `v1` is read after the loop has
rewritten it (`v1` does not start before `s`, or its first `len(s)` elements end before `s`
starts; two slices that do not overlap are such). -/
theorem Min_variants_are_pointwise_minimum_of_numbers (a : List F64) (s v1 : Slice)
    (t : List F64) (c : F64) (o : Nat → F64) (oi : Nat → F64 → F64)
    (hs : s.off + s.len ≤ a.length) (hv : v1.off + v1.len ≤ a.length)
    (hle : s.len ≤ v1.len) (hsep : s.off ≤ v1.off ∨ v1.off + s.len ≤ s.off)
    (hnum : ∀ (i : Nat) (x y : F64), (s.view a)[i]? = some x → (v1.view a)[i]? = some y →
      x ≠ F64.NaN ∧ y ≠ F64.NaN)
    (ht : ∀ x ∈ t, x ≠ F64.NaN) (hc : c ≠ F64.NaN)
    (ho : ∀ i, i < t.length → o i ≠ F64.NaN)
    (hoi : ∀ (i : Nat) (x : F64), t[i]? = some x → oi i x ≠ F64.NaN) :
    (∃ r, (MinvMem a s v1 : Except Panic (List F64)) = Except.ok r ∧
      r.length = a.length ∧ (s.view r).length = s.len ∧
      (∀ (i : Nat) (x y : F64), (s.view a)[i]? = some x → (v1.view a)[i]? = some y →
        ∃ z, (s.view r)[i]? = some z ∧ z = math.Min x y ∧
          z ≤ x ∧ z ≤ y ∧ (z = x ∨ z = y)) ∧
      (∀ j, j < s.off ∨ s.off + s.len ≤ j → r[j]? = a[j]?)) ∧
    (∃ r, (Minl t c : Except Panic (List F64)) = Except.ok r ∧ r.length = t.length ∧
      ∀ (i : Nat) (x : F64), t[i]? = some x →
        ∃ z, r[i]? = some z ∧ z = math.Min x c ∧ z ≤ x ∧ z ≤ c ∧ (z = x ∨ z = c)) ∧
    (∃ r, (MinOp t fun i => pure (o i) : Except Panic (List F64)) = Except.ok r ∧
      r.length = t.length ∧
      ∀ (i : Nat) (x : F64), t[i]? = some x →
        ∃ z, r[i]? = some z ∧ z = math.Min x (o i) ∧
          z ≤ x ∧ z ≤ o i ∧ (z = x ∨ z = o i)) ∧
    (∃ r, (MinOpi t fun i x => pure (oi i x) : Except Panic (List F64)) = Except.ok r ∧
      r.length = t.length ∧
      ∀ (i : Nat) (x : F64), t[i]? = some x →
        ∃ z, r[i]? = some z ∧ z = math.Min x (oi i x) ∧
          z ≤ x ∧ z ≤ oi i x ∧ (z = x ∨ z = oi i x)) := by
  have hmem : ∀ (i : Nat) (x : F64), t[i]? = some x → x ≠ F64.NaN := by
    intro i x hx
    have hi := lt_of_getElem? hx
    rw [List.getElem?_eq_getElem hi] at hx
    cases hx
    exact ht _ (List.getElem_mem _)
  refine ⟨⟨_, MinvMem_eq a s v1 hs hv hle hsep, (rewritten_spec _ s v1 a hs).1,
    (rewritten_spec _ s v1 a hs).2.1, ?_, (rewritten_spec _ s v1 a hs).2.2.2⟩,
    ⟨_, Minl_eq t c, by simp, ?_⟩, ⟨_, MinOp_eq t o, by simp, ?_⟩,
    ⟨_, MinOpi_eq t oi, by simp, ?_⟩⟩
  · intro i x y hx hy
    obtain ⟨hxn, hyn⟩ := hnum i x y hx hy
    exact ⟨_, (rewritten_spec _ s v1 a hs).2.2.1 i x y hx hy, rfl,
      F64.Min_of_numbers x y hxn hyn⟩
  · intro i x hx
    refine ⟨_, ?_, rfl, F64.Min_of_numbers x c (hmem i x hx) hc⟩
    rw [List.getElem?_mapIdx, hx]
    rfl
  · intro i x hx
    refine ⟨_, ?_, rfl, F64.Min_of_numbers x (o i) (hmem i x hx) (ho i (lt_of_getElem? hx))⟩
    rw [List.getElem?_mapIdx, hx]
    rfl
  · intro i x hx
    refine ⟨_, ?_, rfl, F64.Min_of_numbers x (oi i x) (hmem i x hx) (hoi i x hx)⟩
    rw [List.getElem?_mapIdx, hx]
    rfl

/-- An instance of `Min_variants_are_pointwise_minimum_of_numbers`:
`Minl([3,1,2], 2) = [2,1,2]`. -/
theorem Min_variants_are_pointwise_minimum_of_numbers_witness :
    (Minl [F64.num 3, F64.num 1, F64.num 2] (F64.num 2) : Except Panic (List F64)) =
      Except.ok [F64.num 2, F64.num 1, F64.num 2] := by
  have hnum : ∀ (i : Nat) (x y : F64),
      (Slice.view ⟨0, 1⟩ [F64.num 3, F64.num 2])[i]? = some x →
      (Slice.view ⟨1, 1⟩ [F64.num 3, F64.num 2])[i]? = some y →
      x ≠ F64.NaN ∧ y ≠ F64.NaN := by
    intro i x y hx hy
    rcases i with _ | i
    · cases hx
      cases hy
      exact ⟨fun h => F64.noConfusion h, fun h => F64.noConfusion h⟩
    · cases hx
  have ht : ∀ x ∈ [F64.num 3, F64.num 1, F64.num 2], x ≠ F64.NaN := by
    intro x hx
    simp at hx
    rcases hx with rfl | rfl | rfl <;> exact fun h => F64.noConfusion h
  obtain ⟨r, hr, hlen, hpt⟩ :=
    (Min_variants_are_pointwise_minimum_of_numbers [F64.num 3, F64.num 2] ⟨0, 1⟩ ⟨1, 1⟩
      [F64.num 3, F64.num 1, F64.num 2] (F64.num 2) (fun _ => F64.num 0) (fun _ x => x)
      (by decide) (by decide) (by decide) (Or.inl (by decide)) hnum ht
      (fun h => F64.noConfusion h) (fun _ _ h => F64.noConfusion h)
      (fun i x hx => (by
        have hi := lt_of_getElem? hx
        rw [List.getElem?_eq_getElem hi] at hx
        cases hx
        exact ht _ (List.getElem_mem _)))).2.1
  rw [hr]
  congr 1
  apply List.ext_getElem?
  intro i
  by_cases hi : i < 3
  · interval_cases i
    · obtain ⟨z, hz, hmin, -⟩ := hpt 0 (F64.num 3) rfl
      rw [hz, hmin]
      rfl
    · obtain ⟨z, hz, hmin, -⟩ := hpt 1 (F64.num 1) rfl
      rw [hz, hmin]
      rfl
    · obtain ⟨z, hz, hmin, -⟩ := hpt 2 (F64.num 2) rfl
      rw [hz, hmin]
      rfl
  · rw [List.getElem?_eq_none (by rw [hlen]; simpa using Nat.le_of_not_lt hi),
      List.getElem?_eq_none (by simpa using Nat.le_of_not_lt hi)]

/-- Claim C14. `Powl(s, e)` returns a vector whose element `i` is `math.Pow(s[i], e)`:
the current element is the base and the right operand the exponent. `Expl(s, b)` returns
the vector whose element `i` is `math.Pow(b, s[i])`, with the operands swapped. -/
theorem Powl_base_is_element_Expl_swaps [math α] (s : List α) (e b : α) :
    (∃ r, (Powl s e : Except Panic (List α)) = Except.ok r ∧ r.length = s.length ∧
      ∀ i (hs : i < s.length) (hr : i < r.length), r[i] = math.Pow s[i] e) ∧
    (∃ r, (Expl s b : Except Panic (List α)) = Except.ok r ∧ r.length = s.length ∧
      ∀ i (hs : i < s.length) (hr : i < r.length), r[i] = math.Pow b s[i]) :=
  ⟨⟨_, Powl_eq s e, mapIdx_pointwise _ s⟩, ⟨_, Expl_eq s b, mapIdx_pointwise _ s⟩⟩

/-- The scenario of the specification, obtained from `Powl_base_is_element_Expl_swaps`
over the rationals: `Powl([2,3,4], 2) = [4,9,16]`, whereas `Expl([2,3,4], 2)` is
`[4,8,16]`. -/
theorem Powl_base_is_element_Expl_swaps_witness :
    (Powl [2, 3, 4] 2 : Except Panic (List ℚ)) = Except.ok [4, 9, 16] ∧
    (Expl [2, 3, 4] 2 : Except Panic (List ℚ)) = Except.ok [4, 8, 16] := by
  obtain ⟨⟨r, hr, hlen, hpt⟩, ⟨r2, hr2, hlen2, hpt2⟩⟩ :=
    Powl_base_is_element_Expl_swaps ([2, 3, 4] : List ℚ) 2 2
  constructor
  · rw [hr]
    congr 1
    apply List.ext_getElem (by simpa using hlen)
    intro i h1 h2
    have h3 : i < 3 := by simpa using h2
    rw [hpt i h3 h1]
    interval_cases i <;> simp [math.Pow] <;> norm_num
  · rw [hr2]
    congr 1
    apply List.ext_getElem (by simpa using hlen2)
    intro i h1 h2
    have h3 : i < 3 := by simpa using h2
    rw [hpt2 i h3 h1]
    interval_cases i <;> simp [math.Pow] <;> norm_num

/-- Claim C15. `Abs(s)` returns the vector of the `math.Abs(s[i])`; where `math.Abs` is the
absolute value of the order (numbers other than NaN) its element `i` is `|s[i]|`, and for
a vector `s` all of whose elements are negative `Negv(Abs(s))` is `s`. -/
theorem Abs_pointwise_and_Negv_restores_negative [LinearOrderedField α] [math α]
    (habs : ∀ x : α, math.Abs x = |x|) (s : List α) :
    (∃ r, (Abs s : Except Panic (List α)) = Except.ok r ∧ r.length = s.length ∧
      ∀ i (hs : i < s.length) (hr : i < r.length), r[i] = |s[i]|) ∧
    ((∀ x ∈ s, x < 0) →
      (Abs s >>= fun r => Negv r : Except Panic (List α)) = Except.ok s) := by
  refine ⟨⟨_, Abs_eq s, by simp, ?_⟩, ?_⟩
  · intro i hs hr
    simp [habs]
  · intro hneg
    rw [Abs_eq, pure_bind, Negv_eq, List.map_map]
    show Except.ok _ = Except.ok s
    congr 1
    conv_rhs => rw [← List.map_id s]
    apply List.map_congr_left
    intro x hx
    simp [habs, abs_of_neg (hneg x hx)]

/-- The scenario of the specification, obtained from
`Abs_pointwise_and_Negv_restores_negative` over the rationals: `Abs([-1,-2,-3])` is
`[1,2,3]`, and `Negv` of it is `[-1,-2,-3]` again. -/
theorem Abs_pointwise_and_Negv_restores_negative_witness :
    (∀ x : ℚ, math.Abs x = |x|) ∧
    (Abs [-1, -2, -3] : Except Panic (List ℚ)) = Except.ok [1, 2, 3] ∧
    (Negv [1, 2, 3] : Except Panic (List ℚ)) = Except.ok [-1, -2, -3] ∧
    (Abs [-1, -2, -3] >>= fun r => Negv r : Except Panic (List ℚ)) =
      Except.ok [-1, -2, -3] := by
  have h := Abs_pointwise_and_Negv_restores_negative (fun _ => rfl) ([-1, -2, -3] : List ℚ)
  refine ⟨fun _ => rfl, ?_, ?_, ?_⟩
  · obtain ⟨r, hr, hlen, hpt⟩ := h.1
    rw [hr]
    congr 1
    apply List.ext_getElem (by simpa using hlen)
    intro i h1 h2
    have h3 : i < 3 := by simpa using h2
    rw [hpt i h3 h1]
    interval_cases i <;> simp [abs_of_neg]
  · rw [Negv_eq]
    rfl
  · apply h.2
    intro x hx
    simp at hx
    rcases hx with rfl | rfl | rfl <;> norm_num

/-- Claim C16. For a pure index-producer `f`, `Apply(s, f)` returns the vector of the
length of `s` whose element `i` is `f(i)`, whatever `s` held before. `Ident(s)` is
`Apply(s, i -> float64(i))`, so its element `i` is the number `i`. -/
theorem Apply_overwrites_with_producer [NatCast α] (s : List α) (f : Nat → α) :
    (∃ r, (Apply s fun i => pure (f i) : Except Panic (List α)) = Except.ok r ∧
      r.length = s.length ∧
      ∀ i (hr : i < r.length), r[i] = f i) ∧
    (∀ t : List α, t.length = s.length →
      (Apply t fun i => pure (f i) : Except Panic (List α)) = Apply s fun i => pure (f i)) ∧
    (Ident s : Except Panic (List α)) = (Apply s fun i => pure ((i : α))) ∧
    (∃ r, (Ident s : Except Panic (List α)) = Except.ok r ∧ r.length = s.length ∧
      ∀ i (hr : i < r.length), r[i] = (i : α)) := by
  refine ⟨⟨_, Apply_eq s f, by simp, ?_⟩, ?_, rfl, ⟨_, Ident_eq s, by simp, ?_⟩⟩
  · intro i hr
    simp
  · intro t ht
    rw [Apply_eq, Apply_eq]
    congr 1
    apply List.ext_getElem?
    intro j
    rw [List.getElem?_mapIdx, List.getElem?_mapIdx]
    by_cases hj : j < s.length
    · simp [List.getElem?_eq_getElem hj, List.getElem?_eq_getElem (ht ▸ hj)]
    · simp [List.getElem?_eq_none (Nat.le_of_not_lt hj),
        List.getElem?_eq_none (ht ▸ Nat.le_of_not_lt hj)]
  · intro i hr
    simp

/-- An instance of `Apply_overwrites_with_producer`: `Ident` on a three-element vector
of rationals gives `[0, 1, 2]`. -/
theorem Apply_overwrites_with_producer_witness :
    (Ident [7, 7, 7] : Except Panic (List ℚ)) = Except.ok [0, 1, 2] := by
  obtain ⟨r, hr, hlen, hpt⟩ :=
    (Apply_overwrites_with_producer ([7, 7, 7] : List ℚ) fun _ => 0).2.2.2
  rw [hr]
  congr 1
  apply List.ext_getElem (by simpa using hlen)
  intro i h1 h2
  have h3 : i < 3 := by simpa using h2
  rw [hpt i h1]
  interval_cases i <;> simp

/-- Counterexample to claim C17 as it is stated, for all vectors: the memory holds the
array `[1,2,3]` followed by the separate vector `v2 = [1,2,99]`; `s = a[1:3]` and
`v1 = a[0:3]` are slices of the array, so `v1` and `v2` agree at the indices below
`len(s) = 2`. `Plusv(s, v1)` leaves `[3,6]` in `s` and `Plusv(s, v2)` leaves `[3,5]`: the
element `v1[1]` is read after the loop has rewritten it. -/
theorem two_vector_ops_read_only_below_length_counterexample :
    Slice.view ⟨0, 3⟩ ([1, 2, 3, 1, 2, 99] : List ℚ) = [1, 2, 3] ∧
    Slice.view ⟨3, 3⟩ ([1, 2, 3, 1, 2, 99] : List ℚ) = [1, 2, 99] ∧
    (PlusvMem ([1, 2, 3, 1, 2, 99] : List ℚ) ⟨1, 2⟩ ⟨0, 3⟩ : Except Panic (List ℚ)) =
      Except.ok [1, 3, 6, 1, 2, 99] ∧
    (PlusvMem ([1, 2, 3, 1, 2, 99] : List ℚ) ⟨1, 2⟩ ⟨3, 3⟩ : Except Panic (List ℚ)) =
      Except.ok [1, 3, 5, 1, 2, 99] ∧
    Slice.view ⟨1, 2⟩ ([1, 3, 6, 1, 2, 99] : List ℚ) = [3, 6] ∧
    Slice.view ⟨1, 2⟩ ([1, 3, 5, 1, 2, 99] : List ℚ) = [3, 5] ∧
    ([3, 6] : List ℚ) ≠ [3, 5] := by
  refine ⟨rfl, rfl, ?_, ?_, rfl, rfl, ?_⟩
  · simp [PlusvMem, acceptMem, forRangeMem, forUpTo, loopFrom, load, store, index, assign,
      pure, Except.pure, bind, Except.bind]
    norm_num
  · simp [PlusvMem, acceptMem, forRangeMem, forUpTo, loopFrom, load, store, index, assign,
      pure, Except.pure, bind, Except.bind]
    norm_num
  · simp

/-- Claim C17, amended. On a memory `a` holding the three slices, when `v1` and `v2` are
both at least as long as `s`, agree at every index below `len(s)`, and neither has an
element that is read after the loop has rewritten it (each does not start before `s`, or
its first `len(s)` elements end before `s` starts; a slice that does not overlap `s` is
such), each of the nine two-vector operations leaves the same memory on `(s, v1)` and on
`(s, v2)`: the elements of the second vector at indices `>= len(s)` are not read. -/
theorem two_vector_ops_read_only_below_length_without_overlap
    [Add α] [Sub α] [Mul α] [Div α] [math α]
    (a : List α) (s v1 v2 : Slice) (p : Nat → Bool)
    (hs : s.off + s.len ≤ a.length)
    (hv1 : v1.off + v1.len ≤ a.length) (hv2 : v2.off + v2.len ≤ a.length)
    (hle1 : s.len ≤ v1.len) (hle2 : s.len ≤ v2.len)
    (hsep1 : s.off ≤ v1.off ∨ v1.off + s.len ≤ s.off)
    (hsep2 : s.off ≤ v2.off ∨ v2.off + s.len ≤ s.off)
    (hagree : ∀ i, i < s.len → (v1.view a)[i]? = (v2.view a)[i]?) :
    (SetvMem a s v1 : Except Panic (List α)) = SetvMem a s v2 ∧
    (PlusvMem a s v1 : Except Panic (List α)) = PlusvMem a s v2 ∧
    (MinusvMem a s v1 : Except Panic (List α)) = MinusvMem a s v2 ∧
    (TimesvMem a s v1 : Except Panic (List α)) = TimesvMem a s v2 ∧
    (DivvMem a s v1 : Except Panic (List α)) = DivvMem a s v2 ∧
    (PowvMem a s v1 : Except Panic (List α)) = PowvMem a s v2 ∧
    (MaxvMem a s v1 : Except Panic (List α)) = MaxvMem a s v2 ∧
    (MinvMem a s v1 : Except Panic (List α)) = MinvMem a s v2 ∧
    (SetMaskvMem a s v1 fun i => pure (p i) : Except Panic (List α)) =
      SetMaskvMem a s v2 fun i => pure (p i) := by
  refine ⟨?_, ?_, ?_, ?_, ?_, ?_, ?_, ?_, ?_⟩
  · rw [SetvMem_eq a s v1 hs hv1 hle1 hsep1, SetvMem_eq a s v2 hs hv2 hle2 hsep2,
      rewritten_congr _ s v1 v2 a hle1 hle2 hagree]
  · rw [PlusvMem_eq a s v1 hs hv1 hle1 hsep1, PlusvMem_eq a s v2 hs hv2 hle2 hsep2,
      rewritten_congr _ s v1 v2 a hle1 hle2 hagree]
  · rw [MinusvMem_eq a s v1 hs hv1 hle1 hsep1, MinusvMem_eq a s v2 hs hv2 hle2 hsep2,
      rewritten_congr _ s v1 v2 a hle1 hle2 hagree]
  · rw [TimesvMem_eq a s v1 hs hv1 hle1 hsep1, TimesvMem_eq a s v2 hs hv2 hle2 hsep2,
      rewritten_congr _ s v1 v2 a hle1 hle2 hagree]
  · rw [DivvMem_eq a s v1 hs hv1 hle1 hsep1, DivvMem_eq a s v2 hs hv2 hle2 hsep2,
      rewritten_congr _ s v1 v2 a hle1 hle2 hagree]
  · rw [PowvMem_eq a s v1 hs hv1 hle1 hsep1, PowvMem_eq a s v2 hs hv2 hle2 hsep2,
      rewritten_congr _ s v1 v2 a hle1 hle2 hagree]
  · rw [MaxvMem_eq a s v1 hs hv1 hle1 hsep1, MaxvMem_eq a s v2 hs hv2 hle2 hsep2,
      rewritten_congr _ s v1 v2 a hle1 hle2 hagree]
  · rw [MinvMem_eq a s v1 hs hv1 hle1 hsep1, MinvMem_eq a s v2 hs hv2 hle2 hsep2,
      rewritten_congr _ s v1 v2 a hle1 hle2 hagree]
  · rw [SetMaskvMem_eq a s v1 p hs hv1 hle1 hsep1, SetMaskvMem_eq a s v2 p hs hv2 hle2 hsep2,
      rewritten_congr _ s v1 v2 a hle1 hle2 hagree]

/-- An instance of `two_vector_ops_read_only_below_length_without_overlap`: the memory
holds `s = [1,2]`, then `v1 = [10,20,30]`, then `v2 = [10,20,99,100]`; the two second
vectors differ only from index 2 on and give the same sum. -/
theorem two_vector_ops_read_only_below_length_without_overlap_witness :
    (PlusvMem ([1, 2, 10, 20, 30, 10, 20, 99, 100] : List ℚ) ⟨0, 2⟩ ⟨2, 3⟩ :
      Except Panic (List ℚ)) =
      PlusvMem ([1, 2, 10, 20, 30, 10, 20, 99, 100] : List ℚ) ⟨0, 2⟩ ⟨5, 4⟩ := by
  have hagree : ∀ i, i < (⟨0, 2⟩ : Slice).len →
      (Slice.view ⟨2, 3⟩ ([1, 2, 10, 20, 30, 10, 20, 99, 100] : List ℚ))[i]? =
        (Slice.view ⟨5, 4⟩ ([1, 2, 10, 20, 30, 10, 20, 99, 100] : List ℚ))[i]? := by
    intro i hi
    have h2 : i < 2 := hi
    interval_cases i <;> rfl
  exact (two_vector_ops_read_only_below_length_without_overlap
    ([1, 2, 10, 20, 30, 10, 20, 99, 100] : List ℚ) ⟨0, 2⟩ ⟨2, 3⟩ ⟨5, 4⟩ (fun _ => true)
    (by decide) (by decide) (by decide) (by decide) (by decide)
    (Or.inl (by decide)) (Or.inl (by decide)) hagree).2.1

/-- Claim C18. Every operation that takes a function value calls it exactly `len(s)`
times, once per index, in ascending index order, also when the function value is
stateful. With function values that record the argument of each call (and whose results
may depend on the calls made before), the record grows by the indices `0, 1, ..., n-1` in
this order (index-producers and predicates), by the elements `s[0], ..., s[n-1]` as they
were before the call (operators), or by the pairs of both (indexed-operators); for
`n = 0` nothing is recorded. -/
theorem function_values_called_once_per_index_ascending
    [Add α] [Sub α] [Mul α] [Div α] [math α] (s v : List α) (c : α)
    (f : List Nat → Nat → α) (g : List α → α → α) (oi : List (Nat × α) → Nat → α → α)
    (p : List Nat → Nat → Bool) (L : List Nat) (Lv : List α) (Lp : List (Nat × α)) :
    (∃ r, (Apply s (recordingFunc f)).run L =
      Except.ok (r, L ++ List.range s.length)) ∧
    (∃ r, (ApplyOp s (recordingOp g)).run Lv = Except.ok (r, Lv ++ s)) ∧
    (∃ r, (ApplyOpi s (recordingOpi oi)).run Lp = Except.ok (r, Lp ++ s.enum)) ∧
    (∃ r, (SetMaskl s c (recordingFunc p)).run L =
      Except.ok (r, L ++ List.range s.length)) ∧
    (s.length ≤ v.length → ∃ r, (SetMaskv s v (recordingFunc p)).run L =
      Except.ok (r, L ++ List.range s.length)) ∧
    (∃ r, (PlusOp s (recordingFunc f)).run L =
      Except.ok (r, L ++ List.range s.length)) ∧
    (∃ r, (MinusOp s (recordingFunc f)).run L =
      Except.ok (r, L ++ List.range s.length)) ∧
    (∃ r, (TimesOp s (recordingFunc f)).run L =
      Except.ok (r, L ++ List.range s.length)) ∧
    (∃ r, (DivOp s (recordingFunc f)).run L =
      Except.ok (r, L ++ List.range s.length)) ∧
    (∃ r, (PowOp s (recordingFunc f)).run L =
      Except.ok (r, L ++ List.range s.length)) ∧
    (∃ r, (MaxOp s (recordingFunc f)).run L =
      Except.ok (r, L ++ List.range s.length)) ∧
    (∃ r, (MinOp s (recordingFunc f)).run L =
      Except.ok (r, L ++ List.range s.length)) ∧
    (∃ r, (PlusOpi s (recordingOpi oi)).run Lp = Except.ok (r, Lp ++ s.enum)) ∧
    (∃ r, (MinusOpi s (recordingOpi oi)).run Lp = Except.ok (r, Lp ++ s.enum)) ∧
    (∃ r, (TimesOpi s (recordingOpi oi)).run Lp = Except.ok (r, Lp ++ s.enum)) ∧
    (∃ r, (DivOpi s (recordingOpi oi)).run Lp = Except.ok (r, Lp ++ s.enum)) ∧
    (∃ r, (PowOpi s (recordingOpi oi)).run Lp = Except.ok (r, Lp ++ s.enum)) ∧
    (∃ r, (MaxOpi s (recordingOpi oi)).run Lp = Except.ok (r, Lp ++ s.enum)) ∧
    (∃ r, (MinOpi s (recordingOpi oi)).run Lp = Except.ok (r, Lp ++ s.enum)) :=
  ⟨mapIdx_index_eq_range s ▸ Apply_records s f L,
   ApplyOp_records s g Lv,
   mapIdx_pair_eq_enum s ▸ ApplyOpi_records s oi Lp,
   mapIdx_index_eq_range s ▸ SetMaskl_records s c p L,
   fun hle => mapIdx_index_eq_range s ▸ SetMaskv_records s v p L hle,
   mapIdx_index_eq_range s ▸ PlusOp_records s f L,
   mapIdx_index_eq_range s ▸ MinusOp_records s f L,
   mapIdx_index_eq_range s ▸ TimesOp_records s f L,
   mapIdx_index_eq_range s ▸ DivOp_records s f L,
   mapIdx_index_eq_range s ▸ PowOp_records s f L,
   mapIdx_index_eq_range s ▸ MaxOp_records s f L,
   mapIdx_index_eq_range s ▸ MinOp_records s f L,
   mapIdx_pair_eq_enum s ▸ PlusOpi_records s oi Lp,
   mapIdx_pair_eq_enum s ▸ MinusOpi_records s oi Lp,
   mapIdx_pair_eq_enum s ▸ TimesOpi_records s oi Lp,
   mapIdx_pair_eq_enum s ▸ DivOpi_records s oi Lp,
   mapIdx_pair_eq_enum s ▸ PowOpi_records s oi Lp,
   mapIdx_pair_eq_enum s ▸ MaxOpi_records s oi Lp,
   mapIdx_pair_eq_enum s ▸ MinOpi_records s oi Lp⟩

/-- An instance of `function_values_called_once_per_index_ascending`: a counter, which
returns the number of calls made before, is called for the indices `0, 1, 2` in this
order on a three-element vector, and not at all on the empty vector. -/
theorem function_values_called_once_per_index_ascending_witness :
    (∃ r, (Apply ([7, 7, 7] : List ℚ) (recordingFunc fun calls _ => (calls.length : ℚ))).run
      [] = Except.ok (r, [0, 1, 2])) ∧
    (∃ r, (Apply ([] : List ℚ) (recordingFunc fun calls _ => (calls.length : ℚ))).run
      [] = Except.ok (r, [])) :=
  ⟨(function_values_called_once_per_index_ascending ([7, 7, 7] : List ℚ) [] 0
      (fun calls _ => (calls.length : ℚ)) (fun _ x => x) (fun _ _ x => x) (fun _ _ => true)
      [] [] []).1,
   (function_values_called_once_per_index_ascending ([] : List ℚ) [] 0
      (fun calls _ => (calls.length : ℚ)) (fun _ x => x) (fun _ _ x => x) (fun _ _ => true)
      [] [] []).1⟩

/-- The runs in place of the two-vector operations end as the operations themselves do:
with the same returned contents, or with the same panic. -/
theorem in_place_runs_agree [Add α] [Sub α] [Mul α] [Div α] [math α]
    (s v1 : List α) (p : Nat → Bool) :
    outcome (SetvInPlace s v1) = Setv s v1 ∧
    outcome (PlusvInPlace s v1) = Plusv s v1 ∧
    outcome (MinusvInPlace s v1) = Minusv s v1 ∧
    outcome (TimesvInPlace s v1) = Timesv s v1 ∧
    outcome (DivvInPlace s v1) = Divv s v1 ∧
    outcome (PowvInPlace s v1) = Powv s v1 ∧
    outcome (MaxvInPlace s v1) = Maxv s v1 ∧
    outcome (MinvInPlace s v1) = Minv s v1 ∧
    outcome (SetMaskvInPlace s v1 p) = SetMaskv s v1 fun i => pure (p i) :=
  ⟨outcome_accept_then s v1 _,
   outcome_accept_then s v1 _,
   outcome_accept_then s v1 _,
   outcome_accept_then s v1 _,
   outcome_accept_then s v1 _,
   outcome_accept_then s v1 _,
   outcome_accept_then s v1 _,
   outcome_accept_then s v1 _,
   outcome_accept_then s v1 _⟩

/-- Claim C19. A two-vector operation fails atomically: when `len(v1) < len(s)` the check
of `accept` panics before the loop writes anything, so the run in place of each of the
nine operations ends with the precondition panic and with the slice `s` exactly as it
was. -/
theorem two_vector_ops_fail_without_writing [Add α] [Sub α] [Mul α] [Div α] [math α]
    (s v1 : List α) (p : Nat → Bool) (h : v1.length < s.length) :
    SetvInPlace s v1 = (s, some (Panic.invalidArraySize v1.length s.length)) ∧
    PlusvInPlace s v1 = (s, some (Panic.invalidArraySize v1.length s.length)) ∧
    MinusvInPlace s v1 = (s, some (Panic.invalidArraySize v1.length s.length)) ∧
    TimesvInPlace s v1 = (s, some (Panic.invalidArraySize v1.length s.length)) ∧
    DivvInPlace s v1 = (s, some (Panic.invalidArraySize v1.length s.length)) ∧
    PowvInPlace s v1 = (s, some (Panic.invalidArraySize v1.length s.length)) ∧
    MaxvInPlace s v1 = (s, some (Panic.invalidArraySize v1.length s.length)) ∧
    MinvInPlace s v1 = (s, some (Panic.invalidArraySize v1.length s.length)) ∧
    SetMaskvInPlace s v1 p = (s, some (Panic.invalidArraySize v1.length s.length)) :=
  ⟨accept_then_short s v1 _ h,
   accept_then_short s v1 _ h,
   accept_then_short s v1 _ h,
   accept_then_short s v1 _ h,
   accept_then_short s v1 _ h,
   accept_then_short s v1 _ h,
   accept_then_short s v1 _ h,
   accept_then_short s v1 _ h,
   accept_then_short s v1 _ h⟩

/-- An instance of `two_vector_ops_fail_without_writing`: `Plusv` on `[1,2,3]` with the
second vector `[10,20]` ends with the precondition panic and the slice still `[1,2,3]`.
The order of check and loop matters for this: the loop of `Plusv` run without the check
ends with the first two elements already rewritten. -/
theorem two_vector_ops_fail_without_writing_witness :
    ([10, 20] : List ℚ).length < ([1, 2, 3] : List ℚ).length ∧
    PlusvInPlace ([1, 2, 3] : List ℚ) [10, 20] =
      ([1, 2, 3], some (Panic.invalidArraySize 2 3)) ∧
    (rangeInPlace ([1, 2, 3] : List ℚ) fun i s => do
      assign s i ((← index s i) + (← index ([10, 20] : List ℚ) i))) =
      ([11, 22, 3], some (Panic.indexOutOfRange 2 2)) := by
  refine ⟨by decide,
    (two_vector_ops_fail_without_writing ([1, 2, 3] : List ℚ) [10, 20] (fun _ => true)
      (by decide)).2.1, ?_⟩
  simp [rangeInPlace, loopInPlace, index, assign, pure, Except.pure, bind, Except.bind,
    throw, throwThe, MonadExceptOf.throw]
  norm_num

/-- Claim C20. The four variants of a family agree under the mapping from suffix to
right-hand operand: for every vector `s`, scalar `c`, vector `v` with `len(v) >= len(s)`
and index-producer `o` (one that panics included), `Plusl(s, c) = PlusOp(s, Constant(c))`,
`Plusv(s, v) = PlusOp(s, Get(v))` and `PlusOp(s, o) = PlusOpi(s, (i, _) -> o(i))`, and
likewise for the Minus, Times, Div, Pow, Max and Min families. -/
theorem variants_agree [Add α] [Sub α] [Mul α] [Div α] [math α]
    (s v : List α) (c : α) (o : Nat → Except Panic α) (hle : s.length ≤ v.length) :
    (Plusl s c : Except Panic (List α)) = PlusOp s (Constant c) ∧
    (Plusv s v : Except Panic (List α)) = PlusOp s (Get v) ∧
    PlusOp s o = (PlusOpi s fun i _ => o i) ∧
    (Minusl s c : Except Panic (List α)) = MinusOp s (Constant c) ∧
    (Minusv s v : Except Panic (List α)) = MinusOp s (Get v) ∧
    MinusOp s o = (MinusOpi s fun i _ => o i) ∧
    (Timesl s c : Except Panic (List α)) = TimesOp s (Constant c) ∧
    (Timesv s v : Except Panic (List α)) = TimesOp s (Get v) ∧
    TimesOp s o = (TimesOpi s fun i _ => o i) ∧
    (Divl s c : Except Panic (List α)) = DivOp s (Constant c) ∧
    (Divv s v : Except Panic (List α)) = DivOp s (Get v) ∧
    DivOp s o = (DivOpi s fun i _ => o i) ∧
    (Powl s c : Except Panic (List α)) = PowOp s (Constant c) ∧
    (Powv s v : Except Panic (List α)) = PowOp s (Get v) ∧
    PowOp s o = (PowOpi s fun i _ => o i) ∧
    (Maxl s c : Except Panic (List α)) = MaxOp s (Constant c) ∧
    (Maxv s v : Except Panic (List α)) = MaxOp s (Get v) ∧
    MaxOp s o = (MaxOpi s fun i _ => o i) ∧
    (Minl s c : Except Panic (List α)) = MinOp s (Constant c) ∧
    (Minv s v : Except Panic (List α)) = MinOp s (Get v) ∧
    MinOp s o = (MinOpi s fun i _ => o i) :=
  ⟨Plusl_eq_PlusOp_Constant s c,
   Plusv_eq_PlusOp_Get s v hle,
   PlusOp_eq_PlusOpi s o,
   Minusl_eq_MinusOp_Constant s c,
   Minusv_eq_MinusOp_Get s v hle,
   MinusOp_eq_MinusOpi s o,
   Timesl_eq_TimesOp_Constant s c,
   Timesv_eq_TimesOp_Get s v hle,
   TimesOp_eq_TimesOpi s o,
   Divl_eq_DivOp_Constant s c,
   Divv_eq_DivOp_Get s v hle,
   DivOp_eq_DivOpi s o,
   Powl_eq_PowOp_Constant s c,
   Powv_eq_PowOp_Get s v hle,
   PowOp_eq_PowOpi s o,
   Maxl_eq_MaxOp_Constant s c,
   Maxv_eq_MaxOp_Get s v hle,
   MaxOp_eq_MaxOpi s o,
   Minl_eq_MinOp_Constant s c,
   Minv_eq_MinOp_Get s v hle,
   MinOp_eq_MinOpi s o⟩

/-- An instance of `variants_agree` over the rationals: `Plusv([1,2,3], [10,20,30])` is
`PlusOp([1,2,3], Get([10,20,30]))`, and both are `[11,22,33]`. -/
theorem variants_agree_witness :
    ([1, 2, 3] : List ℚ).length ≤ ([10, 20, 30] : List ℚ).length ∧
    (Plusv [1, 2, 3] [10, 20, 30] : Except Panic (List ℚ)) =
      PlusOp [1, 2, 3] (Get [10, 20, 30]) ∧
    (PlusOp [1, 2, 3] (Get [10, 20, 30]) : Except Panic (List ℚ)) =
      Except.ok [11, 22, 33] := by
  have h := (variants_agree ([1, 2, 3] : List ℚ) [10, 20, 30] 0 (fun _ => pure 0)
    (by decide)).2.1
  refine ⟨by decide, h, ?_⟩
  rw [← h, Plusv_eq _ _ (by decide)]
  show Except.ok _ = Except.ok _
  congr 1
  simp
  norm_num

end Claims

end F64supp
